import Mathlib

/-!
# Verification of the spanreed wire layer (`network_connect.rs`) and test storage

A shallow embedding of the repository's message model (CBOR encode/decode via
minicbor), length-prefixed framing codec, handshake logic of
`RepoHandle::connect_tokio_io`, channel narrowing, and the two in-memory
storage implementations from `test_utils/storage_utils.rs`.

Bytes are modelled as natural numbers below 256 inside `List Nat`; machine
arithmetic (the `as u32` cast in the encoder) is made explicit with `% 2^32`.
-/

namespace Spanreed

instance {ε α : Type} [DecidableEq ε] [DecidableEq α] : DecidableEq (Except ε α) :=
  fun x y =>
    match x, y with
    | .ok a, .ok b =>
      if h : a = b then isTrue (by rw [h]) else isFalse (by simp [h])
    | .error a, .error b =>
      if h : a = b then isTrue (by rw [h]) else isFalse (by simp [h])
    | .ok _, .error _ => isFalse (by simp)
    | .error _, .ok _ => isFalse (by simp)

/-! ## UTF-8 byte encoding of strings

minicbor's `Decoder::str` validates that a text string's bytes are well-formed
UTF-8 (via `core::str::from_utf8`), and its `Encoder::str` writes the UTF-8
bytes of the Rust string.  We model both directions over `List Nat`.
-/

/-- UTF-8 encoding of a unicode scalar value (as emitted for each char of a
Rust `str`). -/
def utf8Char (c : Nat) : List Nat :=
  if c < 128 then [c]
  else if c < 2048 then [192 + c / 64, 128 + c % 64]
  else if c < 65536 then [224 + c / 4096, 128 + c / 64 % 64, 128 + c % 64]
  else [240 + c / 262144, 128 + c / 4096 % 64, 128 + c / 64 % 64, 128 + c % 64]

/-- The UTF-8 bytes of a string, as written by minicbor's string encoder. -/
def utf8Encode (s : String) : List Nat :=
  (s.data.map (fun ch => utf8Char ch.toNat)).flatten

/-- Decode one UTF-8 character from the front of a byte list, with the strict
validation performed by `core::str::from_utf8`: bad continuation bytes,
overlong forms, surrogates and scalar values above `0x10FFFF` are rejected. -/
def utf8DecodeChar : List Nat → Option (Char × List Nat)
  | [] => none
  | b :: rest =>
    if b < 128 then some (Char.ofNat b, rest)
    else if b < 224 then
      match rest with
      | b1 :: rest1 =>
        if 192 ≤ b ∧ 128 ≤ b1 ∧ b1 < 192 then
          let c := (b - 192) * 64 + (b1 - 128)
          if 128 ≤ c then some (Char.ofNat c, rest1) else none
        else none
      | [] => none
    else if b < 240 then
      match rest with
      | b1 :: b2 :: rest2 =>
        if 128 ≤ b1 ∧ b1 < 192 ∧ 128 ≤ b2 ∧ b2 < 192 then
          let c := (b - 224) * 4096 + (b1 - 128) * 64 + (b2 - 128)
          if 2048 ≤ c ∧ ¬(55296 ≤ c ∧ c < 57344) then some (Char.ofNat c, rest2)
          else none
        else none
      | _ => none
    else if b < 248 then
      match rest with
      | b1 :: b2 :: b3 :: rest3 =>
        if 128 ≤ b1 ∧ b1 < 192 ∧ 128 ≤ b2 ∧ b2 < 192 ∧ 128 ≤ b3 ∧ b3 < 192 then
          let c := (b - 240) * 262144 + (b1 - 128) * 4096 + (b2 - 128) * 64 + (b3 - 128)
          if 65536 ≤ c ∧ c < 1114112 then some (Char.ofNat c, rest3) else none
        else none
      | _ => none
    else none

/-- Strict UTF-8 decoding of a whole byte list into characters.  The length
guard is a termination device; `utf8DecodeChar` always consumes at least one
byte, so the guard never fails on reachable inputs. -/
def utf8Decode : List Nat → Option (List Char)
  | [] => some []
  | b :: rest =>
    match utf8DecodeChar (b :: rest) with
    | some (c, rest') =>
      if _hlen : rest'.length < rest.length + 1 then
        (utf8Decode rest').map (fun cs => c :: cs)
      else none
    | none => none
termination_by l => l.length
decreasing_by
  simp only [List.length_cons]
  omega

theorem utf8Char_ne_nil (n : Nat) : utf8Char n ≠ [] := by
  unfold utf8Char
  split
  · simp
  · split
    · simp
    · split <;> simp

theorem utf8DecodeChar_encode (c : Char) (rest : List Nat) :
    utf8DecodeChar (utf8Char c.toNat ++ rest) = some (c, rest) := by
  have hvalid : c.toNat < 55296 ∨ (57344 ≤ c.toNat ∧ c.toNat < 1114112) := by
    have h := c.valid
    rcases h with h | ⟨h1, h2⟩
    · left
      exact_mod_cast h
    · right
      constructor
      · exact_mod_cast h1
      · exact_mod_cast h2
  have hofNat : Char.ofNat c.toNat = c := Char.ofNat_toNat c
  set n := c.toNat with hn
  rcases Nat.lt_or_ge n 128 with h1 | h1
  · rw [utf8Char, if_pos h1]
    simp only [List.cons_append, List.nil_append, utf8DecodeChar, if_pos h1, hofNat]
  · rcases Nat.lt_or_ge n 2048 with h2 | h2
    · rw [utf8Char, if_neg (by omega), if_pos h2]
      have hcond : 192 ≤ 192 + n / 64 ∧ 128 ≤ 128 + n % 64 ∧ 128 + n % 64 < 192 := by omega
      have hc : (192 + n / 64 - 192) * 64 + (128 + n % 64 - 128) = n := by omega
      simp only [List.cons_append, List.nil_append, utf8DecodeChar,
        if_neg (show ¬192 + n / 64 < 128 by omega),
        if_pos (show 192 + n / 64 < 224 by omega), if_pos hcond, hc,
        if_pos (show 128 ≤ n from h1), hofNat]
    · rcases Nat.lt_or_ge n 65536 with h3 | h3
      · rw [utf8Char, if_neg (by omega), if_neg (by omega), if_pos h3]
        have hcond : 128 ≤ 128 + n / 64 % 64 ∧ 128 + n / 64 % 64 < 192 ∧
            128 ≤ 128 + n % 64 ∧ 128 + n % 64 < 192 := by omega
        have hc : (224 + n / 4096 - 224) * 4096 + (128 + n / 64 % 64 - 128) * 64 +
            (128 + n % 64 - 128) = n := by omega
        have hrange : 2048 ≤ n ∧ ¬(55296 ≤ n ∧ n < 57344) := by omega
        simp only [List.cons_append, List.nil_append, utf8DecodeChar,
          if_neg (show ¬224 + n / 4096 < 128 by omega),
          if_neg (show ¬224 + n / 4096 < 224 by omega),
          if_pos (show 224 + n / 4096 < 240 by omega), if_pos hcond, hc,
          if_pos hrange, hofNat]
      · rw [utf8Char, if_neg (by omega), if_neg (by omega), if_neg (by omega)]
        have hcond : 128 ≤ 128 + n / 4096 % 64 ∧ 128 + n / 4096 % 64 < 192 ∧
            128 ≤ 128 + n / 64 % 64 ∧ 128 + n / 64 % 64 < 192 ∧
            128 ≤ 128 + n % 64 ∧ 128 + n % 64 < 192 := by omega
        have hc : (240 + n / 262144 - 240) * 262144 + (128 + n / 4096 % 64 - 128) * 4096 +
            (128 + n / 64 % 64 - 128) * 64 + (128 + n % 64 - 128) = n := by omega
        have hrange : 65536 ≤ n ∧ n < 1114112 := by omega
        simp only [List.cons_append, List.nil_append, utf8DecodeChar,
          if_neg (show ¬240 + n / 262144 < 128 by omega),
          if_neg (show ¬240 + n / 262144 < 224 by omega),
          if_neg (show ¬240 + n / 262144 < 240 by omega),
          if_pos (show 240 + n / 262144 < 248 by omega), if_pos hcond, hc,
          if_pos hrange, hofNat]

theorem utf8Decode_char (c : Char) (rest : List Nat) :
    utf8Decode (utf8Char c.toNat ++ rest) = (utf8Decode rest).map (fun cs => c :: cs) := by
  have hchar := utf8DecodeChar_encode c rest
  cases hsh : utf8Char c.toNat with
  | nil => exact absurd hsh (utf8Char_ne_nil c.toNat)
  | cons b tl =>
    rw [hsh] at hchar
    have hlen : rest.length < (tl ++ rest).length + 1 := by
      simp only [List.length_append]
      omega
    simp only [List.cons_append]
    rw [utf8Decode]
    simp only [List.cons_append] at hchar
    simp only [hchar, hlen, dif_pos]

theorem utf8Decode_append (cs : List Char) (rest : List Nat) :
    utf8Decode ((cs.map (fun ch => utf8Char ch.toNat)).flatten ++ rest) =
      (utf8Decode rest).map (fun tail => cs ++ tail) := by
  induction cs with
  | nil =>
    simp only [List.map_nil, List.flatten_nil, List.nil_append]
    cases utf8Decode rest <;> rfl
  | cons c cs ih =>
    simp only [List.map_cons, List.flatten_cons, List.append_assoc, utf8Decode_char, ih]
    cases utf8Decode rest <;> rfl

theorem utf8Decode_utf8Encode (s : String) :
    utf8Decode (utf8Encode s) = some s.data := by
  have h := utf8Decode_append s.data []
  simpa [utf8Encode, utf8Decode] using h

/-! ## CBOR primitives

The subset of minicbor used by `Message::encode` / `Message::decode`:
definite-length maps, text strings, byte strings, and `skip`.  A CBOR head is
one initial byte (3-bit major type, 5-bit additional information) followed by
0/1/2/4/8 bytes of big-endian argument; minicbor's encoder always emits the
minimal-width head.
-/

/-- Structural decode errors of minicbor (`minicbor::decode::Error`); the Rust
code stores only their rendered message (`DecodeError::Minicbor(String)`), so
the constructor tag is what matters here. -/
inductive CborError where
  | endOfInput
  | typeMismatch
  | invalidUtf8
  | invalidHead
  deriving DecidableEq

/-- Read `n` big-endian bytes, accumulating into `acc`. -/
def takeBE : Nat → Nat → List Nat → Option (Nat × List Nat)
  | 0, acc, b => some (acc, b)
  | _ + 1, _, [] => none
  | n + 1, acc, x :: r => takeBE n (acc * 256 + x) r

/-- Minimal-width CBOR head for major type `major` and argument `n`, as
written by minicbor's encoder. -/
def cborHead (major n : Nat) : List Nat :=
  if n < 24 then [32 * major + n]
  else if n < 256 then [32 * major + 24, n]
  else if n < 65536 then [32 * major + 25, n / 256, n % 256]
  else if n < 4294967296 then
    [32 * major + 26, n / 16777216, n / 65536 % 256, n / 256 % 256, n % 256]
  else [32 * major + 27, n / 72057594037927936 % 256, n / 281474976710656 % 256,
    n / 1099511627776 % 256, n / 4294967296 % 256, n / 16777216 % 256,
    n / 65536 % 256, n / 256 % 256, n % 256]

/-- Parse a CBOR head: major type, argument (`none` for indefinite length),
and remaining bytes.  Additional-information values 28–30 are invalid. -/
def readHead : List Nat → Except CborError (Nat × Option Nat × List Nat)
  | [] => .error .endOfInput
  | b :: rest =>
    let major := b / 32
    let add := b % 32
    if add < 24 then .ok (major, some add, rest)
    else if add = 24 then
      match takeBE 1 0 rest with
      | some (v, r) => .ok (major, some v, r)
      | none => .error .endOfInput
    else if add = 25 then
      match takeBE 2 0 rest with
      | some (v, r) => .ok (major, some v, r)
      | none => .error .endOfInput
    else if add = 26 then
      match takeBE 4 0 rest with
      | some (v, r) => .ok (major, some v, r)
      | none => .error .endOfInput
    else if add = 27 then
      match takeBE 8 0 rest with
      | some (v, r) => .ok (major, some v, r)
      | none => .error .endOfInput
    else if add = 31 then .ok (major, none, rest)
    else .error .invalidHead

/-- Model of `minicbor::Decoder::map`: `some n` for a definite-length map of
`n` entries, `none` for an indefinite-length map, error otherwise. -/
def readMap (b : List Nat) : Except CborError (Option Nat × List Nat) :=
  match readHead b with
  | .error e => .error e
  | .ok (major, arg, rest) =>
    if major = 5 then .ok (arg, rest) else .error .typeMismatch

/-- Model of `minicbor::Decoder::str`: a definite-length text string whose
bytes must be valid UTF-8.  Indefinite-length strings are rejected (minicbor
requires `str_iter` for those). -/
def readStr (b : List Nat) : Except CborError (String × List Nat) :=
  match readHead b with
  | .error e => .error e
  | .ok (major, arg, rest) =>
    if major = 3 then
      match arg with
      | some n =>
        if n ≤ rest.length then
          match utf8Decode (rest.take n) with
          | some cs => .ok (String.mk cs, rest.drop n)
          | none => .error .invalidUtf8
        else .error .endOfInput
      | none => .error .typeMismatch
    else .error .typeMismatch

/-- Model of `minicbor::Decoder::bytes`: a definite-length byte string. -/
def readBytes (b : List Nat) : Except CborError (List Nat × List Nat) :=
  match readHead b with
  | .error e => .error e
  | .ok (major, arg, rest) =>
    if major = 2 then
      match arg with
      | some n =>
        if n ≤ rest.length then .ok (rest.take n, rest.drop n)
        else .error .endOfInput
      | none => .error .typeMismatch
    else .error .typeMismatch

/-- Encoded CBOR text string (`Encoder::str`). -/
def cborStr (s : String) : List Nat :=
  cborHead 3 (utf8Encode s).length ++ utf8Encode s

/-- Encoded CBOR byte string (`Encoder::bytes`). -/
def cborBytes (b : List Nat) : List Nat :=
  cborHead 2 b.length ++ b

theorem readHead_cborHead (major n : Nat) (rest : List Nat)
    (hn : n < 18446744073709551616) :
    readHead (cborHead major n ++ rest) = .ok (major, some n, rest) := by
  rcases Nat.lt_or_ge n 24 with h1 | h1
  · rw [cborHead, if_pos h1]
    simp only [List.cons_append, List.nil_append, readHead]
    rw [show (32 * major + n) % 32 = n by omega, show (32 * major + n) / 32 = major by omega,
      if_pos h1]
  · rcases Nat.lt_or_ge n 256 with h2 | h2
    · rw [cborHead, if_neg (by omega), if_pos h2]
      simp only [List.cons_append, List.nil_append, readHead, takeBE]
      rw [show (32 * major + 24) % 32 = 24 by omega,
        show (32 * major + 24) / 32 = major by omega]
      norm_num
    · rcases Nat.lt_or_ge n 65536 with h3 | h3
      · rw [cborHead, if_neg (by omega), if_neg (by omega), if_pos h3]
        simp only [List.cons_append, List.nil_append, readHead, takeBE]
        rw [show (32 * major + 25) % 32 = 25 by omega,
          show (32 * major + 25) / 32 = major by omega]
        norm_num
        omega
      · rcases Nat.lt_or_ge n 4294967296 with h4 | h4
        · rw [cborHead, if_neg (by omega), if_neg (by omega), if_neg (by omega), if_pos h4]
          simp only [List.cons_append, List.nil_append, readHead, takeBE]
          rw [show (32 * major + 26) % 32 = 26 by omega,
            show (32 * major + 26) / 32 = major by omega]
          norm_num
          omega
        · rw [cborHead, if_neg (by omega), if_neg (by omega), if_neg (by omega),
            if_neg (by omega)]
          simp only [List.cons_append, List.nil_append, readHead, takeBE]
          rw [show (32 * major + 27) % 32 = 27 by omega,
            show (32 * major + 27) / 32 = major by omega]
          norm_num
          omega

theorem readStr_cborStr (s : String) (rest : List Nat)
    (hs : (utf8Encode s).length < 18446744073709551616) :
    readStr (cborStr s ++ rest) = .ok (s, rest) := by
  rw [cborStr, List.append_assoc, readStr, readHead_cborHead 3 _ _ hs]
  have hle : (utf8Encode s).length ≤ (utf8Encode s ++ rest).length := by simp
  simp [hle, List.take_left, List.drop_left, utf8Decode_utf8Encode]

theorem readBytes_cborBytes (b rest : List Nat)
    (hb : b.length < 18446744073709551616) :
    readBytes (cborBytes b ++ rest) = .ok (b, rest) := by
  rw [cborBytes, List.append_assoc, readBytes, readHead_cborHead 2 _ _ hb]
  have hle : b.length ≤ (b ++ rest).length := by simp
  simp [hle, List.take_left, List.drop_left]

theorem readMap_cborHead (n : Nat) (rest : List Nat)
    (hn : n < 18446744073709551616) :
    readMap (cborHead 5 n ++ rest) = .ok (some n, rest) := by
  rw [readMap, readHead_cborHead 5 _ _ hn]
  simp

/-- Skip the chunks of an indefinite-length (byte or text) string: each chunk
must be a definite-length string of the same major type, until a break byte. -/
def skipChunks : Nat → Nat → List Nat → Option (List Nat)
  | 0, _, _ => none
  | f + 1, major, b =>
    if b.head? = some 255 then some b.tail
    else
      match readHead b with
      | .ok (m, some n, rest) =>
        if m = major ∧ n ≤ rest.length then skipChunks f major (rest.drop n) else none
      | _ => none

mutual

/-- Model of `minicbor::Decoder::skip`: skip exactly one data item, including
nested and indefinite-length structures.  The fuel argument only bounds
nesting depth (it is threaded untouched through element counting); any item
whose encoding fits in the buffer needs fuel at most the buffer length. -/
def skipItem : Nat → List Nat → Option (List Nat)
  | 0, _ => none
  | f + 1, b =>
    match readHead b with
    | .error _ => none
    | .ok (major, arg, rest) =>
      match major, arg with
      | 0, some _ => some rest
      | 1, some _ => some rest
      | 2, some n => if n ≤ rest.length then some (rest.drop n) else none
      | 2, none => skipChunks f 2 rest
      | 3, some n => if n ≤ rest.length then some (rest.drop n) else none
      | 3, none => skipChunks f 3 rest
      | 4, some n => skipMany f n rest
      | 4, none => skipUntilBreak f rest
      | 5, some n => skipMany f (2 * n) rest
      | 5, none => skipUntilBreak f rest
      | 6, some _ => skipItem f rest
      | 7, some _ => some rest
      | _, _ => none

/-- Skip `n` consecutive data items. -/
def skipMany : Nat → Nat → List Nat → Option (List Nat)
  | _, 0, b => some b
  | f, n + 1, b =>
    match skipItem f b with
    | some r => skipMany f n r
    | none => none

/-- Skip data items until a break byte (`0xFF`) — indefinite arrays/maps. -/
def skipUntilBreak : Nat → List Nat → Option (List Nat)
  | 0, _ => none
  | f + 1, b =>
    if b.head? = some 255 then some b.tail
    else
      match skipItem f b with
      | some r => skipUntilBreak f r
      | none => none

end

/-! ## The message model

`RepoId`, `DocumentId`, `RepoMessage` and `Message` are declared in the
repository's `interfaces.rs`, which is not part of the sources here; their
shape is taken from the spec's data model (§3). -/

/-- Modelled from the spec: `PeerId`/`RepoId`, an opaque string identifier
whose equality is string equality (`RepoId(String)` in `interfaces.rs`). -/
structure RepoId where
  val : String
  deriving DecidableEq

/-- Modelled from the spec: `DocumentId`, an opaque string identifier
(`DocumentId(String)` in `interfaces.rs`). -/
structure DocumentId where
  val : String
  deriving DecidableEq

/-- Modelled from the spec: the application message
(`ApplicationMessage::Sync` of §3, `RepoMessage::Sync` in `interfaces.rs`):
`{ from, to, document, payload }` with an opaque byte payload. -/
inductive RepoMessage where
  | Sync (from_repo_id : RepoId) (to_repo_id : RepoId)
      (document_id : DocumentId) (message : List Nat)
  deriving DecidableEq

/-- Modelled from the spec: the wire-level sum type `Message` of §3 —
`Join(PeerId)`, `Joined(PeerId)`, and the application variant. -/
inductive Message where
  | Join (sender : RepoId)
  | Joined (sender : RepoId)
  | Repo (msg : RepoMessage)
  deriving DecidableEq

/-- Modelled from the spec: `NetworkError` from `interfaces.rs`; the code uses
a single variant `NetworkError::Error`. -/
inductive NetworkError where
  | Error
  deriving DecidableEq

/-- Model of `DecodeError` from `network_connect.rs`.  `Minicbor` carries the
structural minicbor error (the Rust code keeps only its rendered message). -/
inductive DecodeError where
  | MissingLen
  | Minicbor (e : CborError)
  | MissingType
  | MissingChannelId
  | MissingSenderId
  | MissingTargetId
  | MissingDocumentId
  | MissingData
  | MissingBroadcast
  | UnknownType (s : String)
  deriving DecidableEq

/-- Model of `CodecError` from `network_connect.rs`. -/
inductive CodecError where
  | Io
  | Decode (e : DecodeError)
  | Network (e : NetworkError)
  deriving DecidableEq

/-- Model of `ConnDirection` from `network_connect.rs`. -/
inductive ConnDirection where
  | Incoming
  | Outgoing
  deriving DecidableEq

/-- Model of `Message::encode`: a definite-length CBOR map with a fixed field order per
variant, exactly as written by the Rust encoder. -/
def Message.encode : Message → List Nat
  | .Join repo_id =>
    cborHead 5 2 ++ cborStr "type" ++ cborStr "join" ++
      cborStr "senderId" ++ cborStr repo_id.val
  | .Repo (.Sync from_repo_id to_repo_id document_id message) =>
    cborHead 5 5 ++ cborStr "type" ++ cborStr "message" ++
      cborStr "senderId" ++ cborStr from_repo_id.val ++
      cborStr "targetId" ++ cborStr to_repo_id.val ++
      cborStr "documentId" ++ cborStr document_id.val ++
      cborStr "message" ++ cborBytes message
  | .Joined repo_id =>
    cborHead 5 2 ++ cborStr "type" ++ cborStr "joined" ++
      cborStr "senderId" ++ cborStr repo_id.val

/-- The mutable locals of `Message::decode`'s entry loop. -/
structure DecodeState where
  sender_id : Option RepoId
  target_id : Option RepoId
  document_id : Option DocumentId
  type_name : Option String
  message : Option (List Nat)
  deriving DecidableEq

def DecodeState.init : DecodeState := ⟨none, none, none, none, none⟩

def DecodeState.withSender (st : DecodeState) (v : RepoId) : DecodeState :=
  ⟨some v, st.target_id, st.document_id, st.type_name, st.message⟩

def DecodeState.withTarget (st : DecodeState) (v : RepoId) : DecodeState :=
  ⟨st.sender_id, some v, st.document_id, st.type_name, st.message⟩

def DecodeState.withDocument (st : DecodeState) (v : DocumentId) : DecodeState :=
  ⟨st.sender_id, st.target_id, some v, st.type_name, st.message⟩

def DecodeState.withTypeName (st : DecodeState) (v : String) : DecodeState :=
  ⟨st.sender_id, st.target_id, st.document_id, some v, st.message⟩

def DecodeState.withMessage (st : DecodeState) (v : List Nat) : DecodeState :=
  ⟨st.sender_id, st.target_id, st.document_id, st.type_name, some v⟩

/-- The `for _ in 0..len` loop of `Message::decode`: read a string key,
dispatch on its name, skip unrecognized keys.  Skip fuel `r.length + 1` is
always sufficient (skipping consumes bytes from `r`). -/
def decodeFields : Nat → List Nat → DecodeState → Except CborError (DecodeState × List Nat)
  | 0, b, st => .ok (st, b)
  | n + 1, b, st =>
    match readStr b with
    | .error e => .error e
    | .ok (key, r) =>
      if key = "senderId" then
        match readStr r with
        | .error e => .error e
        | .ok (v, r2) => decodeFields n r2 (st.withSender ⟨v⟩)
      else if key = "targetId" then
        match readStr r with
        | .error e => .error e
        | .ok (v, r2) => decodeFields n r2 (st.withTarget ⟨v⟩)
      else if key = "documentId" then
        match readStr r with
        | .error e => .error e
        | .ok (v, r2) => decodeFields n r2 (st.withDocument ⟨v⟩)
      else if key = "type" then
        match readStr r with
        | .error e => .error e
        | .ok (v, r2) => decodeFields n r2 (st.withTypeName v)
      else if key = "message" then
        match readBytes r with
        | .error e => .error e
        | .ok (v, r2) => decodeFields n r2 (st.withMessage v)
      else
        match skipItem (r.length + 1) r with
        | some r2 => decodeFields n r2 st
        | none => .error .endOfInput

/-- The trailing `match type_name` block of `Message::decode`: dispatch on
the `type` field (`join`, `message`, `joined`, unknown) and enforce the
required fields of each variant in the code's order. -/
def typeDispatch (st : DecodeState) : Except DecodeError Message :=
  match st.type_name with
  | none => .error .MissingType
  | some t =>
    if t = "join" then
      match st.sender_id with
      | some s => .ok (.Join s)
      | none => .error .MissingSenderId
    else if t = "message" then
      match st.sender_id with
      | none => .error .MissingSenderId
      | some s =>
        match st.target_id with
        | none => .error .MissingTargetId
        | some tgt =>
          match st.document_id with
          | none => .error .MissingDocumentId
          | some d =>
            match st.message with
            | none => .error .MissingData
            | some m => .ok (.Repo (.Sync s tgt d m))
    else if t = "joined" then
      match st.sender_id with
      | some s => .ok (.Joined s)
      | none => .error .MissingSenderId
    else .error (.UnknownType t)

/-- Model of `Message::decode`: read the declared map length (indefinite maps are
`MissingLen`), run the entry loop, then dispatch on the `type` field. -/
def Message.decode (data : List Nat) : Except DecodeError Message :=
  match readMap data with
  | .error e => .error (.Minicbor e)
  | .ok (none, _) => .error .MissingLen
  | .ok (some len, r) =>
    match decodeFields len r .init with
    | .error e => .error (.Minicbor e)
    | .ok (st, _) => typeDispatch st

/-! ## Stepping the decode loop -/

/-- The Rust-side invariant that a string's UTF-8 byte length fits in `u64`
(`usize` on 64-bit targets); every constructible Rust string satisfies it. -/
def strOk (s : String) : Prop :=
  (utf8Encode s).length < 18446744073709551616

instance (s : String) : Decidable (strOk s) := by
  unfold strOk
  infer_instance

theorem decodeFields_senderId (n : Nat) (s : String) (hs : strOk s)
    (rest : List Nat) (st : DecodeState) :
    decodeFields (n + 1) (cborStr "senderId" ++ (cborStr s ++ rest)) st =
      decodeFields n rest (st.withSender ⟨s⟩) := by
  simp only [decodeFields, readStr_cborStr "senderId" (cborStr s ++ rest) (by decide),
    readStr_cborStr s rest hs, eq_self_iff_true, if_true]

theorem decodeFields_targetId (n : Nat) (s : String) (hs : strOk s)
    (rest : List Nat) (st : DecodeState) :
    decodeFields (n + 1) (cborStr "targetId" ++ (cborStr s ++ rest)) st =
      decodeFields n rest (st.withTarget ⟨s⟩) := by
  simp only [decodeFields, readStr_cborStr "targetId" (cborStr s ++ rest) (by decide),
    readStr_cborStr s rest hs, eq_self_iff_true, if_true,
    if_neg (show ¬("targetId" = "senderId") by decide)]

theorem decodeFields_documentId (n : Nat) (s : String) (hs : strOk s)
    (rest : List Nat) (st : DecodeState) :
    decodeFields (n + 1) (cborStr "documentId" ++ (cborStr s ++ rest)) st =
      decodeFields n rest (st.withDocument ⟨s⟩) := by
  simp only [decodeFields, readStr_cborStr "documentId" (cborStr s ++ rest) (by decide),
    readStr_cborStr s rest hs, eq_self_iff_true, if_true,
    if_neg (show ¬("documentId" = "senderId") by decide),
    if_neg (show ¬("documentId" = "targetId") by decide)]

theorem decodeFields_typeName (n : Nat) (s : String) (hs : strOk s)
    (rest : List Nat) (st : DecodeState) :
    decodeFields (n + 1) (cborStr "type" ++ (cborStr s ++ rest)) st =
      decodeFields n rest (st.withTypeName s) := by
  simp only [decodeFields, readStr_cborStr "type" (cborStr s ++ rest) (by decide),
    readStr_cborStr s rest hs, eq_self_iff_true, if_true,
    if_neg (show ¬("type" = "senderId") by decide),
    if_neg (show ¬("type" = "targetId") by decide),
    if_neg (show ¬("type" = "documentId") by decide)]

theorem decodeFields_message (n : Nat) (v : List Nat)
    (hv : v.length < 18446744073709551616) (rest : List Nat) (st : DecodeState) :
    decodeFields (n + 1) (cborStr "message" ++ (cborBytes v ++ rest)) st =
      decodeFields n rest (st.withMessage v) := by
  simp only [decodeFields, readStr_cborStr "message" (cborBytes v ++ rest) (by decide),
    readBytes_cborBytes v rest hv, eq_self_iff_true, if_true,
    if_neg (show ¬("message" = "senderId") by decide),
    if_neg (show ¬("message" = "targetId") by decide),
    if_neg (show ¬("message" = "documentId") by decide),
    if_neg (show ¬("message" = "type") by decide)]

/-! ## C1: encode/decode round-trip -/

/-- Every value a Rust `Message` can hold satisfies these size bounds:
string byte lengths and payload lengths fit in `usize` (64-bit). -/
def Message.Ok : Message → Prop
  | .Join r => strOk r.val
  | .Joined r => strOk r.val
  | .Repo (.Sync f t d b) =>
      strOk f.val ∧ strOk t.val ∧ strOk d.val ∧
        b.length < 18446744073709551616

theorem decode_encode_Join (r : RepoId) (h : strOk r.val) :
    Message.decode (Message.encode (.Join r)) = .ok (.Join r) := by
  have hshape : Message.encode (.Join r) =
      cborHead 5 2 ++ (cborStr "type" ++ (cborStr "join" ++
        (cborStr "senderId" ++ (cborStr r.val ++ [])))) := by
    simp [Message.encode]
  rw [hshape, Message.decode, readMap_cborHead 2 _ (by norm_num)]
  simp only []
  rw [decodeFields_typeName 1 "join" (by decide), decodeFields_senderId 0 r.val h]
  rfl

theorem decode_encode_Joined (r : RepoId) (h : strOk r.val) :
    Message.decode (Message.encode (.Joined r)) = .ok (.Joined r) := by
  have hshape : Message.encode (.Joined r) =
      cborHead 5 2 ++ (cborStr "type" ++ (cborStr "joined" ++
        (cborStr "senderId" ++ (cborStr r.val ++ [])))) := by
    simp [Message.encode]
  rw [hshape, Message.decode, readMap_cborHead 2 _ (by norm_num)]
  simp only []
  rw [decodeFields_typeName 1 "joined" (by decide), decodeFields_senderId 0 r.val h]
  rfl

theorem decode_encode_Sync (f t : RepoId) (d : DocumentId) (b : List Nat)
    (hf : strOk f.val) (ht : strOk t.val) (hd : strOk d.val)
    (hb : b.length < 18446744073709551616) :
    Message.decode (Message.encode (.Repo (.Sync f t d b))) =
      .ok (.Repo (.Sync f t d b)) := by
  have hshape : Message.encode (.Repo (.Sync f t d b)) =
      cborHead 5 5 ++ (cborStr "type" ++ (cborStr "message" ++
        (cborStr "senderId" ++ (cborStr f.val ++
        (cborStr "targetId" ++ (cborStr t.val ++
        (cborStr "documentId" ++ (cborStr d.val ++
        (cborStr "message" ++ (cborBytes b ++ [])))))))))) := by
    simp [Message.encode]
  rw [hshape, Message.decode, readMap_cborHead 5 _ (by norm_num)]
  simp only []
  rw [decodeFields_typeName 4 "message" (by decide), decodeFields_senderId 3 f.val hf,
    decodeFields_targetId 2 t.val ht, decodeFields_documentId 1 d.val hd,
    decodeFields_message 0 b hb]
  rfl

/-- C1 — Round-trip: for every constructible `Message` value `m` (every id
string and payload fits in a 64-bit `usize`, as any Rust value does),
`Message::decode (Message::encode m) = Ok m`. -/
theorem C1_message_roundtrip (m : Message) (h : m.Ok) :
    Message.decode (Message.encode m) = .ok m := by
  match m with
  | .Join r => exact decode_encode_Join r h
  | .Joined r => exact decode_encode_Joined r h
  | .Repo (.Sync f t d b) =>
    exact decode_encode_Sync f t d b h.1 h.2.1 h.2.2.1 h.2.2.2

/-- Witness for C1 at a concrete message. -/
theorem C1_message_roundtrip_witness :
    (Message.Ok (.Repo (.Sync ⟨"peer-a"⟩ ⟨"peer-b"⟩ ⟨"doc-1"⟩ [1, 2, 3]))) ∧
      Message.decode (Message.encode (.Repo (.Sync ⟨"peer-a"⟩ ⟨"peer-b"⟩ ⟨"doc-1"⟩ [1, 2, 3]))) =
        .ok (.Repo (.Sync ⟨"peer-a"⟩ ⟨"peer-b"⟩ ⟨"doc-1"⟩ [1, 2, 3])) :=
  ⟨by constructor <;> decide, C1_message_roundtrip _ (by constructor <;> decide)⟩

/-! ## C2: the handshake of `RepoHandle::connect_tokio_io`

The framed transport is modelled by the list of elements its stream yields
(`stream.next()` returns them in order; the empty list is immediate
end-of-stream).  Sink writes are assumed to be accepted by the transport; the
observable outcome records the messages sent, whether (and under which remote
id) `new_remote_repo` was invoked, and the returned `Result`. -/

structure ConnectOutcome where
  sent : List Message
  registered : Option RepoId
  result : Except CodecError Unit
  deriving DecidableEq

/-- Model of `RepoHandle::connect_tokio_io` (handshake part), `self.get_repo_id()`
being `selfId`.  Incoming: require `Join(other)` first, reply `Joined(self)`,
register.  Outgoing: send `Join(self)`, require `Joined(other)`, register.
All failure paths return `Err(NetworkError::Error.into())` without
registering. -/
def connect_tokio_io (selfId : RepoId) (input : List (Except CodecError Message))
    (direction : ConnDirection) : ConnectOutcome :=
  match direction with
  | .Incoming =>
    match input with
    | msg :: _ =>
      match msg with
      | .ok (.Join other_id) => ⟨[.Joined selfId], some other_id, .ok ()⟩
      | _ => ⟨[], none, .error (.Network .Error)⟩
    | [] => ⟨[], none, .error (.Network .Error)⟩
  | .Outgoing =>
    match input with
    | .ok (.Joined other_id) :: _ => ⟨[.Join selfId], some other_id, .ok ()⟩
    | _ => ⟨[.Join selfId], none, .error (.Network .Error)⟩

/-- C2 — Handshake, all clauses: (i) Incoming with first message `Join(p)`
sends exactly one `Joined(selfId)`, registers `p`, returns Ok; (ii) Incoming
with any other first element (wrong message or decode error) and (iii) with
immediate end-of-stream errors without sending or registering; (iv) Outgoing
always sends `Join(selfId)` first; with next message `Joined(p)` it registers
`p` and returns Ok; (v) any other first element or (vi) end-of-stream errors
without registering. -/
theorem C2_handshake (selfId : RepoId) :
    (∀ (p : RepoId) (rest : List (Except CodecError Message)),
      connect_tokio_io selfId (.ok (.Join p) :: rest) .Incoming =
        ⟨[.Joined selfId], some p, .ok ()⟩) ∧
    (∀ (first : Except CodecError Message) (rest : List (Except CodecError Message)),
      (∀ p : RepoId, first ≠ .ok (.Join p)) →
      connect_tokio_io selfId (first :: rest) .Incoming =
        ⟨[], none, .error (.Network .Error)⟩) ∧
    (connect_tokio_io selfId [] .Incoming = ⟨[], none, .error (.Network .Error)⟩) ∧
    (∀ input, (connect_tokio_io selfId input .Outgoing).sent = [.Join selfId]) ∧
    (∀ (p : RepoId) (rest : List (Except CodecError Message)),
      connect_tokio_io selfId (.ok (.Joined p) :: rest) .Outgoing =
        ⟨[.Join selfId], some p, .ok ()⟩) ∧
    (∀ (first : Except CodecError Message) (rest : List (Except CodecError Message)),
      (∀ p : RepoId, first ≠ .ok (.Joined p)) →
      connect_tokio_io selfId (first :: rest) .Outgoing =
        ⟨[.Join selfId], none, .error (.Network .Error)⟩) ∧
    (connect_tokio_io selfId [] .Outgoing =
      ⟨[.Join selfId], none, .error (.Network .Error)⟩) := by
  refine ⟨fun p rest => rfl, ?_, rfl, ?_, fun p rest => rfl, ?_, rfl⟩
  · intro first rest hne
    match first with
    | .ok (.Join p) => exact absurd rfl (hne p)
    | .ok (.Joined p) => rfl
    | .ok (.Repo m) => rfl
    | .error e => rfl
  · intro input
    match input with
    | [] => rfl
    | .ok (.Join p) :: _ => rfl
    | .ok (.Joined p) :: _ => rfl
    | .ok (.Repo m) :: _ => rfl
    | .error e :: _ => rfl
  · intro first rest hne
    match first with
    | .ok (.Join p) => rfl
    | .ok (.Joined p) => exact absurd rfl (hne p)
    | .ok (.Repo m) => rfl
    | .error e => rfl

/-- Witness for C2: concrete Incoming success, Incoming rejection of a `Sync`
first message, and Outgoing success. -/
theorem C2_handshake_witness :
    connect_tokio_io ⟨"peer-a"⟩ [.ok (.Join ⟨"peer-b"⟩)] .Incoming =
      ⟨[.Joined ⟨"peer-a"⟩], some ⟨"peer-b"⟩, .ok ()⟩ ∧
    connect_tokio_io ⟨"peer-a"⟩
        [.ok (.Repo (.Sync ⟨"x"⟩ ⟨"y"⟩ ⟨"d"⟩ []))] .Incoming =
      ⟨[], none, .error (.Network .Error)⟩ ∧
    connect_tokio_io ⟨"peer-a"⟩ [.ok (.Joined ⟨"peer-b"⟩)] .Outgoing =
      ⟨[.Join ⟨"peer-a"⟩], some ⟨"peer-b"⟩, .ok ()⟩ :=
  ⟨(C2_handshake ⟨"peer-a"⟩).1 ⟨"peer-b"⟩ [],
    (C2_handshake ⟨"peer-a"⟩).2.1 _ [] (fun p => by simp),
    (C2_handshake ⟨"peer-a"⟩).2.2.2.2.1 ⟨"peer-b"⟩ []⟩

/-! ## C4: channel narrowing after the handshake -/

/-- The closure of `stream.map` in `connect_tokio_io`: `Ok(Message::Repo(m))`
passes through as `Ok(m)`, everything else becomes `Err(NetworkError::Error)`. -/
def narrowElem : Except CodecError Message → Except NetworkError RepoMessage
  | .ok (.Repo repo_msg) => .ok repo_msg
  | _ => .error .Error

/-- The narrowed receive stream: the elementwise image of the generic
message stream (`stream.map`). -/
def narrowStream (msgs : List (Except CodecError Message)) :
    List (Except NetworkError RepoMessage) :=
  msgs.map narrowElem

/-- The closure of `sink.with` in `connect_tokio_io`: wrap an outgoing
application message in `Message::Repo`, pass errors through. -/
def sinkWrap : Except NetworkError RepoMessage → Except NetworkError Message
  | .ok repo_msg => .ok (.Repo repo_msg)
  | .error err => .error err

/-- C4 — Channel narrowing: `Ok(Repo m)` elements map to `Ok m`; every other
element (stray `Join`/`Joined` or a codec error) maps to an error element;
the narrowed stream has an element for every element of the source stream
(errors do not terminate it); the sink wraps each application message in
`Message::Repo`. -/
theorem C4_narrowing :
    (∀ m : RepoMessage, narrowElem (.ok (.Repo m)) = .ok m) ∧
    (∀ e : Except CodecError Message, (∀ m : RepoMessage, e ≠ .ok (.Repo m)) →
      narrowElem e = .error .Error) ∧
    (∀ msgs : List (Except CodecError Message),
      (narrowStream msgs).length = msgs.length ∧
      ∀ i : Nat, (narrowStream msgs)[i]? = (msgs[i]?).map narrowElem) ∧
    (∀ rm : RepoMessage, sinkWrap (.ok rm) = .ok (.Repo rm)) ∧
    (∀ err : NetworkError, sinkWrap (.error err) = .error err) := by
  refine ⟨fun m => rfl, ?_, ?_, fun rm => rfl, fun err => rfl⟩
  · intro e hne
    match e with
    | .ok (.Join p) => rfl
    | .ok (.Joined p) => rfl
    | .ok (.Repo m) => exact absurd rfl (hne m)
    | .error err => rfl
  · intro msgs
    refine ⟨by simp [narrowStream], ?_⟩
    intro i
    simp [narrowStream]

/-- Witness for C4: a stray `Join` after the handshake becomes an error
element, with the surrounding elements intact. -/
theorem C4_narrowing_witness :
    narrowElem (.ok (.Join ⟨"peer-c"⟩)) = .error .Error ∧
    narrowStream [.ok (.Repo (.Sync ⟨"a"⟩ ⟨"b"⟩ ⟨"d"⟩ [7])), .ok (.Join ⟨"peer-c"⟩)] =
      [.ok (.Sync ⟨"a"⟩ ⟨"b"⟩ ⟨"d"⟩ [7]), .error .Error] :=
  ⟨C4_narrowing.2.1 _ (fun m => by simp), by decide⟩

/-! ## C9: the storage implementations from `test_utils/storage_utils.rs` -/

/-- The `documents: HashMap<DocumentId, Vec<u8>>` of both in-memory storage
implementations, modelled as a partial map. -/
def StorageMap := DocumentId → Option (List Nat)

/-- Model of `InMemoryStorage::get`. -/
def StorageMap.get (st : StorageMap) (id : DocumentId) : Option (List Nat) :=
  st id

/-- Model of `InMemoryStorage::append`: `entry(id).or_insert_with(Default::default)`
then `entry.append(&mut changes)`. -/
def StorageMap.append (st : StorageMap) (id : DocumentId) (changes : List Nat) : StorageMap :=
  fun k => if k = id then some ((st id).getD [] ++ changes) else st k

/-- Model of `InMemoryStorage::compact`: `documents.insert(id, full_doc)`. -/
def StorageMap.compact (st : StorageMap) (id : DocumentId) (full_doc : List Nat) : StorageMap :=
  fun k => if k = id then some full_doc else st k

/-- The `StorageRequest::Compact` handler of `AsyncInMemoryStorage`:
`documents.entry(doc_id).and_modify(|entry| *entry = data).or_insert_with(Default::default)`
— when the id is present the entry is overwritten with `data`, when absent an
empty (default) vector is inserted. -/
def StorageMap.asyncCompact (st : StorageMap) (id : DocumentId) (data : List Nat) : StorageMap :=
  fun k => if k = id then
      match st id with
      | some _ => some data
      | none => some []
    else st k

/-- C9 evaluated at the failing input: compacting an id that is not yet
present stores the blob in `InMemoryStorage`, but `AsyncInMemoryStorage`'s
compact handler stores the empty vector instead of the blob. -/
theorem C9_compact_divergence :
    ((StorageMap.compact (fun _ => none) ⟨"doc-1"⟩ [1, 2, 3]).get ⟨"doc-1"⟩ =
      some [1, 2, 3]) ∧
    ((StorageMap.asyncCompact (fun _ => none) ⟨"doc-1"⟩ [1, 2, 3]).get ⟨"doc-1"⟩ =
      some []) ∧
    some ([] : List Nat) ≠ some [1, 2, 3] := by
  refine ⟨?_, ?_, by simp⟩
  · simp [StorageMap.compact, StorageMap.get]
  · simp [StorageMap.asyncCompact, StorageMap.get]

/-- The part of C9 the code does satisfy: `InMemoryStorage::compact` always
replaces, and the async handler replaces when the id was present. -/
theorem C9_compact_replaces (st : StorageMap) (id : DocumentId) (blob : List Nat) :
    (StorageMap.compact st id blob).get id = some blob ∧
    (∀ prev, st.get id = some prev →
      (StorageMap.asyncCompact st id blob).get id = some blob) := by
  constructor
  · simp [StorageMap.compact, StorageMap.get]
  · intro prev hprev
    have h : st id = some prev := hprev
    simp [StorageMap.asyncCompact, StorageMap.get, h]

/-- Witness for `C9_compact_replaces`. -/
theorem C9_compact_replaces_witness :
    (StorageMap.asyncCompact (fun k => if k = ⟨"doc-1"⟩ then some [9] else none)
      ⟨"doc-1"⟩ [1, 2, 3]).get ⟨"doc-1"⟩ = some [1, 2, 3] :=
  (C9_compact_replaces (fun k => if k = ⟨"doc-1"⟩ then some [9] else none)
    ⟨"doc-1"⟩ [1, 2, 3]).2 [9] (by decide)

/-! ## C10: indefinite-length maps are rejected with `MissingLen` -/

/-- C10 — `decoder.map()` returns `None` for an indefinite-length map head
(`0xBF`), which `Message::decode` turns into `DecodeError::MissingLen`, for
every body content — including one carrying all fields of a valid `join`
message. -/
theorem C10_indefinite_map :
    (∀ rest : List Nat, Message.decode (191 :: rest) = .error .MissingLen) ∧
    Message.decode ((191 :: (cborStr "type" ++ cborStr "join" ++
      cborStr "senderId" ++ cborStr "peer-a")) ++ [255]) = .error .MissingLen := by
  constructor
  · intro rest
    rfl
  · decide

/-! ## The framing codec (`Codec` in `network_connect.rs`) -/

/-- Model of `u32::from_be_bytes` over the first four buffered bytes. -/
def readBE32 : List Nat → Nat
  | b0 :: b1 :: b2 :: b3 :: _ => ((b0 * 256 + b1) * 256 + b2) * 256 + b3
  | _ => 0

/-- Model of `u32::to_be_bytes` (argument below `2^32`). -/
def be32 (n : Nat) : List Nat :=
  [n / 16777216 % 256, n / 65536 % 256, n / 256 % 256, n % 256]

/-- Model of `Codec::decode` (`tokio_util::codec::Decoder`): the result paired with
the buffer state after the call.  Fewer than 4 buffered bytes, or fewer than
`4 + L` for the length prefix `L`: `Ok(None)` with nothing consumed.
Otherwise exactly `4 + L` bytes are consumed (`src.advance(len + 4)`) and the
body is decoded with `Message::decode`. -/
def Codec.decode (src : List Nat) : Except CodecError (Option Message) × List Nat :=
  if src.length < 4 then (.ok none, src)
  else
    let len := readBE32 src
    if src.length < len + 4 then (.ok none, src)
    else
      let data := (src.drop 4).take len
      let rest := src.drop (len + 4)
      match Message.decode data with
      | .ok msg => (.ok (some msg), rest)
      | .error e => (.error (.Decode e), rest)

/-- Model of `Codec::encode` (`tokio_util::codec::Encoder`): append the big-endian
`u32` length (the `as u32` cast is a truncation) and the encoded body to the
destination buffer. -/
def Codec.encode (msg : Message) (dst : List Nat) : List Nat :=
  dst ++ be32 (msg.encode.length % 4294967296) ++ msg.encode

/-- The wire frame of one message (`Codec::encode` into an empty buffer). -/
def frame (msg : Message) : List Nat :=
  Codec.encode msg []

theorem readBE32_be32 (n : Nat) (rest : List Nat) (hn : n < 4294967296) :
    readBE32 (be32 n ++ rest) = n := by
  simp only [be32, List.cons_append, List.nil_append, readBE32]
  omega

theorem Codec.decode_short (src : List Nat) (h : src.length < 4) :
    Codec.decode src = (.ok none, src) := by
  rw [Codec.decode, if_pos h]

theorem Codec.decode_need_more (src : List Nat) (h4 : 4 ≤ src.length)
    (h : src.length < readBE32 src + 4) :
    Codec.decode src = (.ok none, src) := by
  rw [Codec.decode, if_neg (by omega)]
  simp only [if_pos h]

/-- On a buffer holding a full frame, `Codec::decode` consumes exactly
`4 + L` bytes and hands the `L` body bytes to `Message::decode`. -/
theorem Codec.decode_frame (body rest : List Nat) (hb : body.length < 4294967296) :
    Codec.decode (be32 body.length ++ body ++ rest) =
      (match Message.decode body with
        | .ok msg => (.ok (some msg) : Except CodecError (Option Message))
        | .error e => .error (.Decode e), rest) := by
  have hlen4 : (be32 body.length).length = 4 := rfl
  have hlen : (be32 body.length ++ body ++ rest).length =
      4 + body.length + rest.length := by
    simp only [List.length_append, hlen4]
    try omega
  have hbe : readBE32 (be32 body.length ++ body ++ rest) = body.length := by
    rw [List.append_assoc]
    exact readBE32_be32 body.length (body ++ rest) hb
  rw [Codec.decode, if_neg (by omega)]
  simp only [hbe, if_neg (show ¬((be32 body.length ++ body ++ rest).length <
    body.length + 4) by omega)]
  have hdrop4 : (be32 body.length ++ body ++ rest).drop 4 = body ++ rest := by
    rw [List.append_assoc]
    rw [show (4 : Nat) = (be32 body.length).length from rfl, List.drop_left]
  have hdata : ((be32 body.length ++ body ++ rest).drop 4).take body.length = body := by
    rw [hdrop4, List.take_left]
  have hll : (be32 body.length ++ body).length = body.length + 4 := by
    simp only [List.length_append, hlen4]
    try omega
  have hrest : (be32 body.length ++ body ++ rest).drop (body.length + 4) = rest := by
    rw [← hll, List.drop_left]
  rw [hdata, hrest]
  cases Message.decode body <;> rfl

/-- On a strict prefix of a frame, `Codec::decode` makes no progress and
consumes nothing. -/
theorem Codec.decode_proper_pre (body p q : List Nat) (hb : body.length < 4294967296)
    (hsplit : p ++ q = be32 body.length ++ body) (hq : q ≠ []) :
    Codec.decode p = (.ok none, p) := by
  have hlen4 : (be32 body.length).length = 4 := rfl
  have hqpos : 0 < q.length := List.length_pos.mpr hq
  have hplen : p.length + q.length = 4 + body.length := by
    have := congrArg List.length hsplit
    simp only [List.length_append, hlen4] at this
    omega
  rcases Nat.lt_or_ge p.length 4 with h4 | h4
  · exact Codec.decode_short p h4
  · have hbe : readBE32 p = body.length := by
      have htake : p.take 4 = be32 body.length := by
        have h1 : (p ++ q).take 4 = p.take 4 :=
          List.take_append_of_le_length h4
        have h2 : (be32 body.length ++ body).take 4 = be32 body.length := by
          rw [← hlen4, List.take_left]
        rw [← h1, hsplit, h2]
      have hdecomp : p = be32 body.length ++ p.drop 4 := by
        rw [← htake]
        exact (List.take_append_drop 4 p).symm
      rw [hdecomp]
      exact readBE32_be32 body.length (p.drop 4) hb
    exact Codec.decode_need_more p h4 (by omega)

/-- The repeated-decode loop driven by `tokio_util`'s `Framed` after new
bytes arrive: call `Codec::decode` until it reports "need more data",
collecting the stream elements it produced.  Fuel `buf.length + 1` always
suffices since every produced element consumes at least 4 bytes. -/
def drainLoop : Nat → List Nat → List (Except CodecError Message) →
    List (Except CodecError Message) × List Nat
  | 0, buf, acc => (acc, buf)
  | f + 1, buf, acc =>
    match Codec.decode buf with
    | (.ok none, buf') => (acc, buf')
    | (.ok (some msg), buf') => drainLoop f buf' (acc ++ [.ok msg])
    | (.error e, buf') => (acc ++ [.error e], buf')

/-- Deliver byte chunks to the framing layer one at a time (arbitrary
transport segmentation), draining after each chunk; returns all stream
elements produced and the final buffer. -/
def feedChunks : List (List Nat) → List Nat →
    List (Except CodecError Message) × List Nat
  | [], buf => ([], buf)
  | chunk :: chunks, buf =>
    let buf1 := buf ++ chunk
    let step := drainLoop (buf1.length + 1) buf1 []
    let restStep := feedChunks chunks step.2
    (step.1 ++ restStep.1, restStep.2)

theorem drainLoop_stuck (f : Nat) (p : List Nat)
    (acc : List (Except CodecError Message))
    (h : Codec.decode p = (.ok none, p)) : drainLoop f p acc = (acc, p) := by
  cases f with
  | zero => rfl
  | succ f => rw [drainLoop, h]

theorem feedChunks_pre (body : List Nat) (hb : body.length < 4294967296) :
    ∀ (chunks : List (List Nat)) (buf q : List Nat),
      (buf ++ chunks.flatten) ++ q = be32 body.length ++ body → q ≠ [] →
      feedChunks chunks buf = ([], buf ++ chunks.flatten) := by
  intro chunks
  induction chunks with
  | nil =>
    intro buf q hsplit hq
    simp [feedChunks]
  | cons chunk chunks ih =>
    intro buf q hsplit hq
    have hsplit1 : ((buf ++ chunk) ++ chunks.flatten) ++ q =
        be32 body.length ++ body := by
      simpa [List.append_assoc] using hsplit
    have hdec : Codec.decode (buf ++ chunk) = (.ok none, buf ++ chunk) := by
      refine Codec.decode_proper_pre body (buf ++ chunk) (chunks.flatten ++ q) hb ?_ ?_
      · simpa [List.append_assoc] using hsplit1
      · intro hcontra
        rcases List.append_eq_nil.mp hcontra with ⟨-, h2⟩
        exact hq h2
    rw [feedChunks]
    simp only [drainLoop_stuck _ _ _ hdec]
    rw [ih (buf ++ chunk) q hsplit1 hq]
    simp [List.append_assoc]

theorem feedChunks_empty :
    ∀ chunks : List (List Nat), chunks.flatten = [] →
      feedChunks chunks [] = ([], []) := by
  intro chunks
  induction chunks with
  | nil => intro h; rfl
  | cons chunk chunks ih =>
    intro h
    rcases List.append_eq_nil.mp h with ⟨h1, h2⟩
    subst h1
    rw [feedChunks]
    simp only [List.nil_append, List.length_nil]
    have hdec : Codec.decode [] = (.ok none, []) := Codec.decode_short [] (by decide)
    simp only [drainLoop_stuck _ _ _ hdec, ih h2]
    rfl

theorem feedChunks_full (m : Message) (hok : m.Ok)
    (hlen : m.encode.length < 4294967296) :
    ∀ (chunks : List (List Nat)) (buf : List Nat),
      buf ++ chunks.flatten = be32 m.encode.length ++ m.encode →
      buf.length < 4 + m.encode.length →
      feedChunks chunks buf = ([.ok m], []) := by
  have hlen4 : (be32 m.encode.length).length = 4 := rfl
  intro chunks
  induction chunks with
  | nil =>
    intro buf hsplit hshort
    exfalso
    have := congrArg List.length hsplit
    simp only [List.flatten_nil, List.append_nil, List.length_append, hlen4] at this
    omega
  | cons chunk chunks ih =>
    intro buf hsplit hshort
    have hsplit1 : (buf ++ chunk) ++ chunks.flatten = be32 m.encode.length ++ m.encode := by
      simpa [List.append_assoc] using hsplit
    have hbc : (buf ++ chunk).length = buf.length + chunk.length :=
      List.length_append _ _
    rcases Nat.lt_or_ge (buf ++ chunk).length (4 + m.encode.length) with hlt | hge
    · have hne : chunks.flatten ≠ [] := by
        intro hcontra
        have := congrArg List.length hsplit1
        simp only [hcontra, List.append_nil, List.length_append, hlen4] at this
        omega
      have hdec : Codec.decode (buf ++ chunk) = (.ok none, buf ++ chunk) :=
        Codec.decode_proper_pre m.encode (buf ++ chunk) chunks.flatten hlen hsplit1 hne
      rw [feedChunks]
      simp only [drainLoop_stuck _ _ _ hdec, ih (buf ++ chunk) hsplit1 hlt]
      rfl
    · have hlenfull : (buf ++ chunk).length = 4 + m.encode.length ∧
          chunks.flatten.length = 0 := by
        have := congrArg List.length hsplit1
        simp only [List.length_append, hlen4] at this
        omega
      have hflat : chunks.flatten = [] := List.length_eq_zero.mp hlenfull.2
      have hbuf1 : buf ++ chunk = be32 m.encode.length ++ m.encode := by
        have := hsplit1
        rw [hflat, List.append_nil] at this
        exact this
      rw [feedChunks]
      simp only [hbuf1]
      have hdecfull : Codec.decode (be32 m.encode.length ++ m.encode) =
          (.ok (some m), []) := by
        have h := Codec.decode_frame m.encode [] hlen
        rw [List.append_nil] at h
        rw [h, C1_message_roundtrip m hok]
      have hdrain : drainLoop ((be32 m.encode.length ++ m.encode).length + 1)
          (be32 m.encode.length ++ m.encode) [] = ([.ok m], []) := by
        have hpos : (be32 m.encode.length ++ m.encode).length + 1 =
            (4 + m.encode.length) + 1 := by
          simp only [List.length_append, hlen4]
        rw [hpos, drainLoop, hdecfull]
        exact drainLoop_stuck _ _ _ (Codec.decode_short [] (by decide))
      simp only [hdrain, feedChunks_empty chunks hflat]
      rfl

/-- C3 — Framing decode step and partial-delivery invariance: (i) fewer than
4 buffered bytes: `Ok(None)`, nothing consumed; (ii) length prefix `L` known
but fewer than `4+L` bytes buffered: `Ok(None)`, nothing consumed; (iii) at
least `4+L` bytes: exactly `4+L` consumed and the `L` body bytes decoded with
`Message::decode`; (iv) a frame delivered in chunks split at arbitrary byte
boundaries yields no element while bytes are missing, and exactly the one
decoded message once the last byte arrives. -/
theorem C3_framing_decode :
    (∀ src : List Nat, src.length < 4 → Codec.decode src = (.ok none, src)) ∧
    (∀ src : List Nat, 4 ≤ src.length → src.length < readBE32 src + 4 →
      Codec.decode src = (.ok none, src)) ∧
    (∀ body rest : List Nat, body.length < 4294967296 →
      Codec.decode (be32 body.length ++ body ++ rest) =
        (match Message.decode body with
          | .ok msg => (.ok (some msg) : Except CodecError (Option Message))
          | .error e => .error (.Decode e), rest)) ∧
    (∀ (m : Message) (chunks : List (List Nat)), m.Ok →
      m.encode.length < 4294967296 → chunks.flatten = frame m →
      (∀ pre suf : List (List Nat), chunks = pre ++ suf → suf.flatten ≠ [] →
        feedChunks pre [] = ([], pre.flatten)) ∧
      feedChunks chunks [] = ([.ok m], [])) := by
  refine ⟨Codec.decode_short, Codec.decode_need_more, Codec.decode_frame, ?_⟩
  intro m chunks hok hlen hflat
  have hframe : frame m = be32 m.encode.length ++ m.encode := by
    simp [frame, Codec.encode, Nat.mod_eq_of_lt hlen]
  constructor
  · intro pre suf hchunks hsuf
    have hpre : (([] ++ pre.flatten) ++ suf.flatten) = be32 m.encode.length ++ m.encode := by
      rw [List.nil_append, ← List.flatten_append, ← hchunks, hflat, hframe]
    simpa using feedChunks_pre m.encode hlen pre [] suf.flatten hpre hsuf
  · exact feedChunks_full m hok hlen chunks [] (by rw [List.nil_append, hflat, hframe])
      (by simp)

/-- Witness for C3: a concrete `Join` frame delivered in two fragments
produces nothing after the first fragment and exactly the message at the end. -/
theorem C3_framing_decode_witness :
    Codec.decode [0, 0, 0] = (.ok none, [0, 0, 0]) ∧
    feedChunks [(frame (.Join ⟨"a"⟩)).take 3] [] =
      ([], (frame (.Join ⟨"a"⟩)).take 3) ∧
    feedChunks [(frame (.Join ⟨"a"⟩)).take 3, (frame (.Join ⟨"a"⟩)).drop 3] [] =
      ([.ok (.Join ⟨"a"⟩)], []) := by
  have h := C3_framing_decode.2.2.2 (.Join ⟨"a"⟩)
    [(frame (.Join ⟨"a"⟩)).take 3, (frame (.Join ⟨"a"⟩)).drop 3]
    (show strOk "a" by decide) (by decide) (by decide)
  refine ⟨C3_framing_decode.1 [0, 0, 0] (by decide), ?_, h.2⟩
  have hp := h.1 [(frame (.Join ⟨"a"⟩)).take 3] [(frame (.Join ⟨"a"⟩)).drop 3]
    rfl (by decide)
  simpa using hp

/-- C5 (amended) — a zero length prefix is accepted by the framing layer:
the 4 prefix bytes are consumed and the empty body goes to `Message::decode`,
which fails with the underlying minicbor end-of-input error (wrapped in
`DecodeError::Minicbor`), not with `MissingType`. -/
theorem C5_empty_body (rest : List Nat) :
    Codec.decode ([0, 0, 0, 0] ++ rest) =
      (.error (.Decode (.Minicbor .endOfInput)), rest) ∧
    Message.decode [] = .error (.Minicbor .endOfInput) := by
  constructor
  · have h := Codec.decode_frame [] rest (by decide)
    simpa [be32] using h
  · rfl

/-- C5 counterexample — the claim says `Message::decode` of the empty body
fails with `MissingType`; it fails with the wrapped minicbor error instead. -/
theorem C5_counterexample :
    Message.decode [] = .error (.Minicbor .endOfInput) ∧
    Message.decode [] ≠ .error .MissingType := by
  constructor
  · rfl
  · intro h
    cases h

/-! ## C6/C7: bodies with an arbitrary subset of the protocol fields -/

/-- One optional string-valued map entry. -/
def optStrEntry (key : String) (v : Option String) : List (List Nat) :=
  match v with
  | some s => [cborStr key ++ cborStr s]
  | none => []

/-- One optional bytes-valued map entry. -/
def optBytesEntry (key : String) (v : Option (List Nat)) : List (List Nat) :=
  match v with
  | some b => [cborStr key ++ cborBytes b]
  | none => []

/-- The entries of a well-formed body carrying an arbitrary subset of the
protocol fields, in the encoder's order (`type` first). -/
def bodyEntries (ty s t d : Option String) (m : Option (List Nat)) : List (List Nat) :=
  optStrEntry "type" ty ++ (optStrEntry "senderId" s ++ (optStrEntry "targetId" t ++
    (optStrEntry "documentId" d ++ optBytesEntry "message" m)))

/-- A well-formed CBOR body (definite-length map, declared length = number of
present fields) carrying an arbitrary subset of the protocol fields. -/
def buildBody (ty s t d : Option String) (m : Option (List Nat)) : List Nat :=
  cborHead 5 (bodyEntries ty s t d m).length ++ (bodyEntries ty s t d m).flatten

def optStrOk : Option String → Prop
  | some s => strOk s
  | none => True

instance (v : Option String) : Decidable (optStrOk v) := by
  cases v <;> unfold optStrOk <;> infer_instance

def optBytesOk : Option (List Nat) → Prop
  | some b => b.length < 18446744073709551616
  | none => True

instance (v : Option (List Nat)) : Decidable (optBytesOk v) := by
  cases v <;> unfold optBytesOk <;> infer_instance

theorem optStrEntry_length (key : String) (v : Option String) :
    (optStrEntry key v).length ≤ 1 := by
  cases v <;> simp [optStrEntry]

theorem optBytesEntry_length (key : String) (v : Option (List Nat)) :
    (optBytesEntry key v).length ≤ 1 := by
  cases v <;> simp [optBytesEntry]

theorem decodeFields_optType (ty : Option String) (hty : optStrOk ty)
    (es : List (List Nat)) (st : DecodeState) :
    decodeFields (optStrEntry "type" ty ++ es).length
        ((optStrEntry "type" ty ++ es).flatten) st =
      decodeFields es.length es.flatten
        (match ty with
          | some u => st.withTypeName u
          | none => st) := by
  cases ty with
  | none => rfl
  | some u =>
    simp only [optStrEntry, List.cons_append, List.nil_append, List.length_cons,
      List.flatten_cons, List.append_assoc]
    exact decodeFields_typeName es.length u hty es.flatten st

theorem decodeFields_optSender (s : Option String) (hs : optStrOk s)
    (es : List (List Nat)) (st : DecodeState) :
    decodeFields (optStrEntry "senderId" s ++ es).length
        ((optStrEntry "senderId" s ++ es).flatten) st =
      decodeFields es.length es.flatten
        (match s with
          | some a => st.withSender ⟨a⟩
          | none => st) := by
  cases s with
  | none => rfl
  | some a =>
    simp only [optStrEntry, List.cons_append, List.nil_append, List.length_cons,
      List.flatten_cons, List.append_assoc]
    exact decodeFields_senderId es.length a hs es.flatten st

theorem decodeFields_optTarget (t : Option String) (ht : optStrOk t)
    (es : List (List Nat)) (st : DecodeState) :
    decodeFields (optStrEntry "targetId" t ++ es).length
        ((optStrEntry "targetId" t ++ es).flatten) st =
      decodeFields es.length es.flatten
        (match t with
          | some a => st.withTarget ⟨a⟩
          | none => st) := by
  cases t with
  | none => rfl
  | some a =>
    simp only [optStrEntry, List.cons_append, List.nil_append, List.length_cons,
      List.flatten_cons, List.append_assoc]
    exact decodeFields_targetId es.length a ht es.flatten st

theorem decodeFields_optDocument (d : Option String) (hd : optStrOk d)
    (es : List (List Nat)) (st : DecodeState) :
    decodeFields (optStrEntry "documentId" d ++ es).length
        ((optStrEntry "documentId" d ++ es).flatten) st =
      decodeFields es.length es.flatten
        (match d with
          | some a => st.withDocument ⟨a⟩
          | none => st) := by
  cases d with
  | none => rfl
  | some a =>
    simp only [optStrEntry, List.cons_append, List.nil_append, List.length_cons,
      List.flatten_cons, List.append_assoc]
    exact decodeFields_documentId es.length a hd es.flatten st

theorem decodeFields_optMessage (m : Option (List Nat)) (hm : optBytesOk m)
    (st : DecodeState) :
    decodeFields (optBytesEntry "message" m).length
        ((optBytesEntry "message" m).flatten) st =
      .ok ((match m with
        | some b => st.withMessage b
        | none => st), []) := by
  cases m with
  | none => rfl
  | some b =>
    simp only [optBytesEntry, List.length_cons, List.length_nil, List.flatten_cons,
      List.flatten_nil, List.append_nil]
    have h := decodeFields_message 0 b hm [] st
    simpa using h

/-- Decoding a body built from an arbitrary subset of the protocol fields
collects exactly the present fields and dispatches on `type`. -/
theorem decode_buildBody (ty s t d : Option String) (m : Option (List Nat))
    (hty : optStrOk ty) (hs : optStrOk s) (ht : optStrOk t) (hd : optStrOk d)
    (hm : optBytesOk m) :
    Message.decode (buildBody ty s t d m) =
      typeDispatch ⟨s.map (⟨·⟩), t.map (⟨·⟩), d.map (⟨·⟩), ty, m⟩ := by
  have hlen : (bodyEntries ty s t d m).length < 18446744073709551616 := by
    have h1 := optStrEntry_length "type" ty
    have h2 := optStrEntry_length "senderId" s
    have h3 := optStrEntry_length "targetId" t
    have h4 := optStrEntry_length "documentId" d
    have h5 := optBytesEntry_length "message" m
    simp only [bodyEntries, List.length_append]
    omega
  rw [buildBody, Message.decode, readMap_cborHead _ _ hlen]
  simp only []
  rw [show bodyEntries ty s t d m =
    optStrEntry "type" ty ++ (optStrEntry "senderId" s ++ (optStrEntry "targetId" t ++
      (optStrEntry "documentId" d ++ optBytesEntry "message" m))) from rfl]
  rw [decodeFields_optType ty hty, decodeFields_optSender s hs,
    decodeFields_optTarget t ht, decodeFields_optDocument d hd,
    decodeFields_optMessage m hm]
  cases ty <;> cases s <;> cases t <;> cases d <;> cases m <;> rfl

/-- C6 — Required-field enforcement for `type: "message"`: with an arbitrary
subset of `senderId`, `targetId`, `documentId`, `message` present, decoding
reports the first absent field in the order senderId, targetId, documentId,
message, and produces `Sync` when all four are present — independent of which
other fields are present. -/
theorem C6_required_fields (s t d : Option String) (m : Option (List Nat))
    (hs : optStrOk s) (ht : optStrOk t) (hd : optStrOk d) (hm : optBytesOk m) :
    Message.decode (buildBody (some "message") s t d m) =
      match s, t, d, m with
      | none, _, _, _ => .error .MissingSenderId
      | some _, none, _, _ => .error .MissingTargetId
      | some _, some _, none, _ => .error .MissingDocumentId
      | some _, some _, some _, none => .error .MissingData
      | some a, some b, some c, some mm => .ok (.Repo (.Sync ⟨a⟩ ⟨b⟩ ⟨c⟩ mm)) := by
  rw [decode_buildBody (some "message") s t d m (by decide) hs ht hd hm]
  rcases s with - | a <;> rcases t with - | b <;> rcases d with - | c <;>
    rcases m with - | mm <;> rfl

/-- Witness for C6: type `"message"` with only `targetId` and `documentId`
present reports `MissingSenderId`; with all four present decodes to `Sync`. -/
theorem C6_required_fields_witness :
    Message.decode (buildBody (some "message") none (some "b") (some "c") none) =
      .error .MissingSenderId ∧
    Message.decode (buildBody (some "message") (some "a") (some "b") (some "c")
        (some [5])) = .ok (.Repo (.Sync ⟨"a"⟩ ⟨"b"⟩ ⟨"c"⟩ [5])) :=
  ⟨C6_required_fields none (some "b") (some "c") none (by decide) (by decide)
      (by decide) (by decide),
    C6_required_fields (some "a") (some "b") (some "c") (some [5]) (by decide)
      (by decide) (by decide) (by decide)⟩

/-- C7 — Type-field dispatch: a well-formed body with no `type` entry fails
with `MissingType` whatever other fields are present; a body whose `type`
value is any string other than `"join"`, `"joined"`, `"message"` fails with
`UnknownType` carrying exactly that string. -/
theorem C7_type_dispatch (s t d : Option String) (m : Option (List Nat))
    (hs : optStrOk s) (ht : optStrOk t) (hd : optStrOk d) (hm : optBytesOk m) :
    (Message.decode (buildBody none s t d m) = .error .MissingType) ∧
    (∀ u : String, strOk u → u ≠ "join" → u ≠ "joined" → u ≠ "message" →
      Message.decode (buildBody (some u) s t d m) = .error (.UnknownType u)) := by
  constructor
  · rw [decode_buildBody none s t d m trivial hs ht hd hm]
    rfl
  · intro u hu hj hjd hmsg
    rw [decode_buildBody (some u) s t d m hu hs ht hd hm]
    simp only [typeDispatch, if_neg hj, if_neg hmsg, if_neg hjd]

/-- Witness for C7: no `type` field (with `senderId` present) gives
`MissingType`; `type: "frobnicate"` gives `UnknownType "frobnicate"`. -/
theorem C7_type_dispatch_witness :
    Message.decode (buildBody none (some "a") none none none) =
      .error .MissingType ∧
    Message.decode (buildBody (some "frobnicate") (some "a") none none none) =
      .error (.UnknownType "frobnicate") :=
  ⟨(C7_type_dispatch (some "a") none none none (by decide) (by decide)
      (by decide) (by decide)).1,
    (C7_type_dispatch (some "a") none none none (by decide) (by decide)
      (by decide) (by decide)).2 "frobnicate" (by decide) (by decide) (by decide)
      (by decide)⟩

/-! ## C8: unknown keys with arbitrary well-formed CBOR values are skipped -/

/-- A CBOR data item, covering everything a compliant encoder can place as
the value of an unknown key: integers, definite and indefinite strings,
arrays and maps, tags, simple values and floats. -/
inductive CborItem where
  | uint (n : Nat)
  | nint (n : Nat)
  | bytes (b : List Nat)
  | bytesIndef (chunks : List (List Nat))
  | text (b : List Nat)
  | textIndef (chunks : List (List Nat))
  | array (xs : List CborItem)
  | arrayIndef (xs : List CborItem)
  | map (ps : List (CborItem × CborItem))
  | mapIndef (ps : List (CborItem × CborItem))
  | tag (t : Nat) (x : CborItem)
  | simple (n : Nat)
  | float16 (b1 b2 : Nat)
  | float32 (b1 b2 b3 b4 : Nat)
  | float64 (b1 b2 b3 b4 b5 b6 b7 b8 : Nat)

/-- The chunk sequence of an indefinite-length string: definite-length
strings of the same major type. -/
def encodeChunks (major : Nat) (chunks : List (List Nat)) : List Nat :=
  (chunks.map (fun c => cborHead major c.length ++ c)).flatten

mutual

/-- The wire bytes of a CBOR data item (minimal-width heads; indefinite
containers open with `0x5F`/`0x7F`/`0x9F`/`0xBF` and close with `0xFF`). -/
def CborItem.encode : CborItem → List Nat
  | .uint n => cborHead 0 n
  | .nint n => cborHead 1 n
  | .bytes b => cborHead 2 b.length ++ b
  | .bytesIndef chunks => 95 :: (encodeChunks 2 chunks ++ [255])
  | .text b => cborHead 3 b.length ++ b
  | .textIndef chunks => 127 :: (encodeChunks 3 chunks ++ [255])
  | .array xs => cborHead 4 xs.length ++ CborItem.encodeList xs
  | .arrayIndef xs => 159 :: (CborItem.encodeList xs ++ [255])
  | .map ps => cborHead 5 ps.length ++ CborItem.encodePairs ps
  | .mapIndef ps => 191 :: (CborItem.encodePairs ps ++ [255])
  | .tag t x => cborHead 6 t ++ x.encode
  | .simple n => [224 + n]
  | .float16 b1 b2 => [249, b1, b2]
  | .float32 b1 b2 b3 b4 => [250, b1, b2, b3, b4]
  | .float64 b1 b2 b3 b4 b5 b6 b7 b8 => [251, b1, b2, b3, b4, b5, b6, b7, b8]

def CborItem.encodeList : List CborItem → List Nat
  | [] => []
  | x :: xs => x.encode ++ CborItem.encodeList xs

def CborItem.encodePairs : List (CborItem × CborItem) → List Nat
  | [] => []
  | (k, v) :: ps => k.encode ++ (v.encode ++ CborItem.encodePairs ps)

end

mutual

/-- Well-formedness: every argument (integer values, lengths, tag numbers)
fits in `u64`, and simple values use the one-byte direct form. -/
def CborItem.wf : CborItem → Bool
  | .uint n => decide (n < 18446744073709551616)
  | .nint n => decide (n < 18446744073709551616)
  | .bytes b => decide (b.length < 18446744073709551616)
  | .bytesIndef chunks => chunks.all (fun c => decide (c.length < 18446744073709551616))
  | .text b => decide (b.length < 18446744073709551616)
  | .textIndef chunks => chunks.all (fun c => decide (c.length < 18446744073709551616))
  | .array xs => decide (xs.length < 18446744073709551616) && CborItem.wfList xs
  | .arrayIndef xs => CborItem.wfList xs
  | .map ps => decide (ps.length < 18446744073709551616) && CborItem.wfPairs ps
  | .mapIndef ps => CborItem.wfPairs ps
  | .tag t x => decide (t < 18446744073709551616) && x.wf
  | .simple n => decide (n < 24)
  | .float16 _ _ => true
  | .float32 _ _ _ _ => true
  | .float64 _ _ _ _ _ _ _ _ => true

def CborItem.wfList : List CborItem → Bool
  | [] => true
  | x :: xs => x.wf && CborItem.wfList xs

def CborItem.wfPairs : List (CborItem × CborItem) → Bool
  | [] => true
  | (k, v) :: ps => k.wf && (v.wf && CborItem.wfPairs ps)

end

/-- Interleave the keys and values of a pair list, as they appear on the
wire. -/
def pairsFlat : List (CborItem × CborItem) → List CborItem
  | [] => []
  | (k, v) :: ps => k :: v :: pairsFlat ps

theorem encodePairs_eq_encodeList (ps : List (CborItem × CborItem)) :
    CborItem.encodePairs ps = CborItem.encodeList (pairsFlat ps) := by
  induction ps with
  | nil => rfl
  | cons p ps ih =>
    obtain ⟨k, v⟩ := p
    simp only [CborItem.encodePairs, pairsFlat, CborItem.encodeList, ih]

theorem wfPairs_eq_wfList (ps : List (CborItem × CborItem)) :
    CborItem.wfPairs ps = CborItem.wfList (pairsFlat ps) := by
  induction ps with
  | nil => rfl
  | cons p ps ih =>
    obtain ⟨k, v⟩ := p
    simp only [CborItem.wfPairs, pairsFlat, CborItem.wfList, ih]

theorem pairsFlat_length (ps : List (CborItem × CborItem)) :
    (pairsFlat ps).length = 2 * ps.length := by
  induction ps with
  | nil => rfl
  | cons p ps ih =>
    obtain ⟨k, v⟩ := p
    simp only [pairsFlat, List.length_cons, ih]
    omega

theorem cborHead_length_pos (major n : Nat) : 1 ≤ (cborHead major n).length := by
  rw [cborHead]
  split
  · simp
  split
  · simp
  split
  · simp
  split <;> simp

theorem cborHead_head (major n : Nat) :
    ∃ b tl, cborHead major n = b :: tl ∧ b < 32 * major + 28 := by
  rw [cborHead]
  split
  · exact ⟨_, _, rfl, by omega⟩
  split
  · exact ⟨_, _, rfl, by omega⟩
  split
  · exact ⟨_, _, rfl, by omega⟩
  split
  · exact ⟨_, _, rfl, by omega⟩
  · exact ⟨_, _, rfl, by omega⟩

theorem cborHead_append_length_pos (major n : Nat) (z : List Nat) :
    1 ≤ (cborHead major n ++ z).length := by
  have := cborHead_length_pos major n
  simp only [List.length_append]
  omega

theorem CborItem.encode_length_pos (x : CborItem) : 1 ≤ x.encode.length := by
  cases x <;> simp only [CborItem.encode] <;>
    first
      | exact cborHead_append_length_pos _ _ _
      | exact cborHead_length_pos _ _
      | simp

/-- The first byte of a well-formed item's encoding is never the break byte
`0xFF`. -/
theorem CborItem.encode_head (x : CborItem) (hwf : x.wf = true) :
    ∃ b tl, x.encode = b :: tl ∧ b < 252 := by
  cases x with
  | uint n =>
    obtain ⟨b, tl, heq, hlt⟩ := cborHead_head 0 n
    exact ⟨b, tl, by simp [CborItem.encode, heq], by omega⟩
  | nint n =>
    obtain ⟨b, tl, heq, hlt⟩ := cborHead_head 1 n
    exact ⟨b, tl, by simp [CborItem.encode, heq], by omega⟩
  | bytes bs =>
    obtain ⟨b, tl, heq, hlt⟩ := cborHead_head 2 bs.length
    exact ⟨b, tl ++ bs, by simp [CborItem.encode, heq], by omega⟩
  | bytesIndef chunks => exact ⟨95, _, rfl, by omega⟩
  | text bs =>
    obtain ⟨b, tl, heq, hlt⟩ := cborHead_head 3 bs.length
    exact ⟨b, tl ++ bs, by simp [CborItem.encode, heq], by omega⟩
  | textIndef chunks => exact ⟨127, _, rfl, by omega⟩
  | array xs =>
    obtain ⟨b, tl, heq, hlt⟩ := cborHead_head 4 xs.length
    exact ⟨b, tl ++ CborItem.encodeList xs, by simp [CborItem.encode, heq], by omega⟩
  | arrayIndef xs => exact ⟨159, _, rfl, by omega⟩
  | map ps =>
    obtain ⟨b, tl, heq, hlt⟩ := cborHead_head 5 ps.length
    exact ⟨b, tl ++ CborItem.encodePairs ps, by simp [CborItem.encode, heq], by omega⟩
  | mapIndef ps => exact ⟨191, _, rfl, by omega⟩
  | tag t x =>
    obtain ⟨b, tl, heq, hlt⟩ := cborHead_head 6 t
    exact ⟨b, tl ++ x.encode, by simp [CborItem.encode, heq], by omega⟩
  | simple n =>
    have hn : n < 24 := by
      have := hwf
      simp only [CborItem.wf, decide_eq_true_eq] at this
      exact this
    exact ⟨224 + n, [], rfl, by omega⟩
  | float16 b1 b2 => exact ⟨249, _, rfl, by omega⟩
  | float32 b1 b2 b3 b4 => exact ⟨250, _, rfl, by omega⟩
  | float64 b1 b2 b3 b4 b5 b6 b7 b8 => exact ⟨251, _, rfl, by omega⟩

theorem skipMany_zero (f : Nat) (b : List Nat) : skipMany f 0 b = some b := by
  rw [skipMany]

theorem skipMany_succ (f n : Nat) (b : List Nat) :
    skipMany f (n + 1) b =
      match skipItem f b with
      | some r => skipMany f n r
      | none => none := by
  rw [skipMany]

theorem skipUntilBreak_succ (f : Nat) (b : List Nat) :
    skipUntilBreak (f + 1) b =
      if b.head? = some 255 then some b.tail
      else
        match skipItem f b with
        | some r => skipUntilBreak f r
        | none => none := by
  rw [skipUntilBreak]

/-- Skipping the encoded chunk sequence of an indefinite-length string stops
exactly at the break byte. -/
theorem skipChunks_encodeChunks (major : Nat) (hmj : major ≤ 3) :
    ∀ (chunks : List (List Nat)) (f : Nat) (rest : List Nat),
      (∀ ch ∈ chunks, ch.length < 18446744073709551616) →
      (encodeChunks major chunks).length + 1 ≤ f →
      skipChunks f major (encodeChunks major chunks ++ 255 :: rest) = some rest := by
  intro chunks
  induction chunks with
  | nil =>
    intro f rest _ hf
    have h1 : 1 ≤ f := by omega
    match f, h1 with
    | f + 1, _ => simp [skipChunks, encodeChunks]
  | cons c cs ih =>
    intro f rest hwf hf
    have hc : c.length < 18446744073709551616 := hwf c (by simp)
    have hunfold : encodeChunks major (c :: cs) ++ 255 :: rest =
        cborHead major c.length ++ (c ++ (encodeChunks major cs ++ 255 :: rest)) := by
      simp [encodeChunks, List.append_assoc]
    obtain ⟨b, tl, heq, hb⟩ := cborHead_head major c.length
    have hhp : 1 ≤ (cborHead major c.length).length := cborHead_length_pos major c.length
    have hflen : (encodeChunks major (c :: cs)).length =
        (cborHead major c.length).length + c.length + (encodeChunks major cs).length := by
      simp [encodeChunks, List.length_append]
      omega
    match f, (show 2 ≤ f by omega) with
    | f' + 1, _ =>
      rw [hunfold, skipChunks]
      have hhead : (cborHead major c.length ++
          (c ++ (encodeChunks major cs ++ 255 :: rest))).head? = some b := by
        rw [heq]
        rfl
      rw [hhead, if_neg (by simp; omega)]
      simp only [readHead_cborHead major c.length _ hc, List.drop_left]
      have hcond : True ∧ c.length ≤ (c ++ (encodeChunks major cs ++ 255 :: rest)).length :=
        ⟨trivial, by simp [List.length_append]⟩
      rw [if_pos hcond]
      exact ih f' rest (fun ch hch => hwf ch (by simp [hch])) (by omega)

/-- Skipping a definite-length sequence of encoded items (array elements, or
a map's interleaved keys and values), given skip-correctness for single items
at the same fuel. -/
theorem skipMany_encodeList (f0 : Nat)
    (H0 : ∀ (x : CborItem) (rest : List Nat), x.wf = true →
      x.encode.length ≤ f0 → skipItem f0 (x.encode ++ rest) = some rest) :
    ∀ (xs : List CborItem) (rest : List Nat), CborItem.wfList xs = true →
      (CborItem.encodeList xs).length ≤ f0 →
      skipMany f0 xs.length (CborItem.encodeList xs ++ rest) = some rest := by
  intro xs
  induction xs with
  | nil =>
    intro rest _ _
    simp only [CborItem.encodeList, List.nil_append, List.length_nil, skipMany_zero]
  | cons x xs ih =>
    intro rest hwf hlen
    simp only [CborItem.wfList, Bool.and_eq_true] at hwf
    have hlens : (CborItem.encodeList (x :: xs)).length =
        x.encode.length + (CborItem.encodeList xs).length := by
      simp [CborItem.encodeList, List.length_append]
    simp only [List.length_cons, skipMany_succ, CborItem.encodeList, List.append_assoc]
    rw [H0 x (CborItem.encodeList xs ++ rest) hwf.1 (by omega)]
    exact ih rest hwf.2 (by omega)

/-- Skipping the encoded items of an indefinite-length container stops
exactly at the break byte, given skip-correctness for single items at every
smaller fuel. -/
theorem skipUntilBreak_encodeList (f0 : Nat)
    (H : ∀ g, g ≤ f0 → ∀ (x : CborItem) (rest : List Nat), x.wf = true →
      x.encode.length ≤ g → skipItem g (x.encode ++ rest) = some rest) :
    ∀ (xs : List CborItem) (f : Nat) (rest : List Nat), f ≤ f0 →
      CborItem.wfList xs = true → (CborItem.encodeList xs).length + 1 ≤ f →
      skipUntilBreak f (CborItem.encodeList xs ++ 255 :: rest) = some rest := by
  intro xs
  induction xs with
  | nil =>
    intro f rest _ _ hf
    have h1 : 1 ≤ f := by omega
    match f, h1 with
    | f + 1, _ => simp [skipUntilBreak_succ, CborItem.encodeList]
  | cons x xs ih =>
    intro f rest hf0 hwf hf
    simp only [CborItem.wfList, Bool.and_eq_true] at hwf
    have hxpos : 1 ≤ x.encode.length := CborItem.encode_length_pos x
    have hlens : (CborItem.encodeList (x :: xs)).length =
        x.encode.length + (CborItem.encodeList xs).length := by
      simp [CborItem.encodeList, List.length_append]
    obtain ⟨b, tl, heq, hb⟩ := CborItem.encode_head x hwf.1
    match f, (show 2 ≤ f by omega) with
    | f' + 1, _ =>
      rw [skipUntilBreak_succ]
      have hhead : (CborItem.encodeList (x :: xs) ++ 255 :: rest).head? = some b := by
        simp only [CborItem.encodeList, heq, List.cons_append, List.head?]
      rw [hhead, if_neg (by simp; omega)]
      have hshape : CborItem.encodeList (x :: xs) ++ 255 :: rest =
          x.encode ++ (CborItem.encodeList xs ++ 255 :: rest) := by
        simp [CborItem.encodeList, List.append_assoc]
      rw [hshape, H f' (by omega) x _ hwf.1 (by omega)]
      exact ih f' rest (by omega) hwf.2 (by omega)

/-- Correctness of the `skip` model: skipping a well-formed item's encoding
consumes exactly that encoding.  The fuel only needs to cover the encoding
length. -/
theorem skipItem_encode : ∀ (f : Nat) (x : CborItem) (rest : List Nat),
    x.wf = true → x.encode.length ≤ f → skipItem f (x.encode ++ rest) = some rest := by
  intro f
  induction f using Nat.strong_induction_on with
  | _ f IH =>
    intro x rest hwf hlen
    have hxpos : 1 ≤ x.encode.length := CborItem.encode_length_pos x
    match f, (show 1 ≤ f by omega) with
    | f' + 1, _ =>
      have H0 : ∀ (y : CborItem) (r : List Nat), y.wf = true →
          y.encode.length ≤ f' → skipItem f' (y.encode ++ r) = some r :=
        fun y r hy hly => IH f' (by omega) y r hy hly
      have Hg : ∀ g, g ≤ f' → ∀ (y : CborItem) (r : List Nat), y.wf = true →
          y.encode.length ≤ g → skipItem g (y.encode ++ r) = some r :=
        fun g hg y r hy hly => by
          match g, (show 1 ≤ g by have := CborItem.encode_length_pos y; omega) with
          | g' + 1, _ => exact IH (g' + 1) (by omega) y r hy hly
      cases x with
      | uint n =>
        simp only [CborItem.wf, decide_eq_true_eq] at hwf
        rw [CborItem.encode, skipItem, readHead_cborHead 0 n rest hwf]
      | nint n =>
        simp only [CborItem.wf, decide_eq_true_eq] at hwf
        rw [CborItem.encode, skipItem, readHead_cborHead 1 n rest hwf]
      | bytes b =>
        simp only [CborItem.wf, decide_eq_true_eq] at hwf
        rw [CborItem.encode, List.append_assoc, skipItem,
          readHead_cborHead 2 b.length (b ++ rest) hwf]
        simp only [if_pos (show b.length ≤ (b ++ rest).length by simp), List.drop_left]
      | text b =>
        simp only [CborItem.wf, decide_eq_true_eq] at hwf
        rw [CborItem.encode, List.append_assoc, skipItem,
          readHead_cborHead 3 b.length (b ++ rest) hwf]
        simp only [if_pos (show b.length ≤ (b ++ rest).length by simp), List.drop_left]
      | bytesIndef chunks =>
        simp only [CborItem.wf, List.all_eq_true, decide_eq_true_eq] at hwf
        have hshape : CborItem.encode (.bytesIndef chunks) ++ rest =
            95 :: (encodeChunks 2 chunks ++ 255 :: rest) := by
          simp [CborItem.encode, List.append_assoc]
        have hflen : (CborItem.encode (.bytesIndef chunks)).length =
            (encodeChunks 2 chunks).length + 2 := by
          simp [CborItem.encode, List.length_append]
        rw [hshape, skipItem]
        have hrh : readHead (95 :: (encodeChunks 2 chunks ++ 255 :: rest)) =
            .ok (2, none, encodeChunks 2 chunks ++ 255 :: rest) := rfl
        rw [hrh]
        exact skipChunks_encodeChunks 2 (by omega) chunks f' rest hwf (by omega)
      | textIndef chunks =>
        simp only [CborItem.wf, List.all_eq_true, decide_eq_true_eq] at hwf
        have hshape : CborItem.encode (.textIndef chunks) ++ rest =
            127 :: (encodeChunks 3 chunks ++ 255 :: rest) := by
          simp [CborItem.encode, List.append_assoc]
        have hflen : (CborItem.encode (.textIndef chunks)).length =
            (encodeChunks 3 chunks).length + 2 := by
          simp [CborItem.encode, List.length_append]
        rw [hshape, skipItem]
        have hrh : readHead (127 :: (encodeChunks 3 chunks ++ 255 :: rest)) =
            .ok (3, none, encodeChunks 3 chunks ++ 255 :: rest) := rfl
        rw [hrh]
        exact skipChunks_encodeChunks 3 (by omega) chunks f' rest hwf (by omega)
      | array xs =>
        simp only [CborItem.wf, Bool.and_eq_true, decide_eq_true_eq] at hwf
        have hflen : (CborItem.encode (.array xs)).length =
            (cborHead 4 xs.length).length + (CborItem.encodeList xs).length := by
          simp [CborItem.encode, List.length_append]
        have hhp : 1 ≤ (cborHead 4 xs.length).length := cborHead_length_pos _ _
        rw [CborItem.encode, List.append_assoc, skipItem,
          readHead_cborHead 4 xs.length _ hwf.1]
        exact skipMany_encodeList f' H0 xs rest hwf.2 (by omega)
      | arrayIndef xs =>
        simp only [CborItem.wf] at hwf
        have hshape : CborItem.encode (.arrayIndef xs) ++ rest =
            159 :: (CborItem.encodeList xs ++ 255 :: rest) := by
          simp [CborItem.encode, List.append_assoc]
        have hflen : (CborItem.encode (.arrayIndef xs)).length =
            (CborItem.encodeList xs).length + 2 := by
          simp [CborItem.encode, List.length_append]
        rw [hshape, skipItem]
        have hrh : readHead (159 :: (CborItem.encodeList xs ++ 255 :: rest)) =
            .ok (4, none, CborItem.encodeList xs ++ 255 :: rest) := rfl
        rw [hrh]
        exact skipUntilBreak_encodeList f' Hg xs f' rest (le_refl f') hwf (by omega)
      | map ps =>
        simp only [CborItem.wf, Bool.and_eq_true, decide_eq_true_eq] at hwf
        have hflen : (CborItem.encode (.map ps)).length =
            (cborHead 5 ps.length).length + (CborItem.encodePairs ps).length := by
          simp [CborItem.encode, List.length_append]
        have hhp : 1 ≤ (cborHead 5 ps.length).length := cborHead_length_pos _ _
        rw [CborItem.encode, List.append_assoc, skipItem,
          readHead_cborHead 5 ps.length _ hwf.1]
        show skipMany f' (2 * ps.length) (CborItem.encodePairs ps ++ rest) = some rest
        rw [encodePairs_eq_encodeList, ← pairsFlat_length ps]
        refine skipMany_encodeList f' H0 (pairsFlat ps) rest ?_ ?_
        · rw [← wfPairs_eq_wfList]
          exact hwf.2
        · rw [← encodePairs_eq_encodeList]
          omega
      | mapIndef ps =>
        simp only [CborItem.wf] at hwf
        have hshape : CborItem.encode (.mapIndef ps) ++ rest =
            191 :: (CborItem.encodePairs ps ++ 255 :: rest) := by
          simp [CborItem.encode, List.append_assoc]
        have hflen : (CborItem.encode (.mapIndef ps)).length =
            (CborItem.encodePairs ps).length + 2 := by
          simp [CborItem.encode, List.length_append]
        rw [hshape, skipItem]
        have hrh : readHead (191 :: (CborItem.encodePairs ps ++ 255 :: rest)) =
            .ok (5, none, CborItem.encodePairs ps ++ 255 :: rest) := rfl
        rw [hrh]
        rw [encodePairs_eq_encodeList]
        refine skipUntilBreak_encodeList f' Hg (pairsFlat ps) f' rest (le_refl f') ?_ ?_
        · rw [← wfPairs_eq_wfList]
          exact hwf
        · rw [← encodePairs_eq_encodeList]
          omega
      | tag t x =>
        simp only [CborItem.wf, Bool.and_eq_true, decide_eq_true_eq] at hwf
        have hflen : (CborItem.encode (.tag t x)).length =
            (cborHead 6 t).length + x.encode.length := by
          simp [CborItem.encode, List.length_append]
        have hhp : 1 ≤ (cborHead 6 t).length := cborHead_length_pos _ _
        rw [CborItem.encode, List.append_assoc, skipItem,
          readHead_cborHead 6 t _ hwf.1]
        exact H0 x rest hwf.2 (by omega)
      | simple n =>
        simp only [CborItem.wf, decide_eq_true_eq] at hwf
        have hhd : CborItem.encode (.simple n) = cborHead 7 n := by
          rw [CborItem.encode, cborHead, if_pos hwf]
        rw [hhd, skipItem, readHead_cborHead 7 n rest (by omega)]
      | float16 b1 b2 =>
        rw [CborItem.encode, skipItem]
        rfl
      | float32 b1 b2 b3 b4 =>
        rw [CborItem.encode, skipItem]
        rfl
      | float64 b1 b2 b3 b4 b5 b6 b7 b8 =>
        rw [CborItem.encode, skipItem]
        rfl

/-- An entry whose key is none of the five recognized field names is skipped
by the decode loop, whatever well-formed CBOR value it carries, leaving the
collected fields untouched. -/
theorem decodeFields_unknown (n : Nat) (key : String) (hk : strOk key)
    (h1 : key ≠ "senderId") (h2 : key ≠ "targetId") (h3 : key ≠ "documentId")
    (h4 : key ≠ "type") (h5 : key ≠ "message")
    (item : CborItem) (hwf : item.wf = true) (rest : List Nat) (st : DecodeState) :
    decodeFields (n + 1) (cborStr key ++ (item.encode ++ rest)) st =
      decodeFields n rest st := by
  have hskip : skipItem ((item.encode ++ rest).length + 1) (item.encode ++ rest) =
      some rest :=
    skipItem_encode ((item.encode ++ rest).length + 1) item rest hwf
      (by simp only [List.length_append]; omega)
  simp only [decodeFields, readStr_cborStr key (item.encode ++ rest) hk,
    if_neg h1, if_neg h2, if_neg h3, if_neg h4, if_neg h5, hskip]

/-- The entry byte chunks of `Message::encode`'s map, in the encoder's
order. -/
def msgEntries : Message → List (List Nat)
  | .Join r => [cborStr "type" ++ cborStr "join",
      cborStr "senderId" ++ cborStr r.val]
  | .Joined r => [cborStr "type" ++ cborStr "joined",
      cborStr "senderId" ++ cborStr r.val]
  | .Repo (.Sync f t d b) => [cborStr "type" ++ cborStr "message",
      cborStr "senderId" ++ cborStr f.val,
      cborStr "targetId" ++ cborStr t.val,
      cborStr "documentId" ++ cborStr d.val,
      cborStr "message" ++ cborBytes b]

/-- Fact: `Message::encode` is exactly the map head over `msgEntries`. -/
theorem encode_eq_msgEntries (m : Message) :
    Message.encode m = cborHead 5 (msgEntries m).length ++ (msgEntries m).flatten := by
  match m with
  | .Join r => simp [Message.encode, msgEntries]
  | .Joined r => simp [Message.encode, msgEntries]
  | .Repo (.Sync f t d b) => simp [Message.encode, msgEntries]

/-- Insert an element at a given position of a list (at the end when the
position is past the end). -/
def insertAt : Nat → List Nat → List (List Nat) → List (List Nat)
  | 0, e, l => e :: l
  | _ + 1, e, [] => [e]
  | n + 1, e, x :: l => x :: insertAt n e l

/-- C8 — Unknown-key tolerance: inserting, at any position of an encoded
body's entry list, an additional entry whose key is none of `senderId`,
`targetId`, `documentId`, `type`, `message` and whose value is any
well-formed CBOR item (adjusting the map's declared length) does not change
the result of `Message::decode`: the decode still yields the original
message. -/
theorem C8_unknown_key_tolerance (m : Message) (hok : m.Ok) (key : String)
    (hk : strOk key) (h1 : key ≠ "senderId") (h2 : key ≠ "targetId")
    (h3 : key ≠ "documentId") (h4 : key ≠ "type") (h5 : key ≠ "message")
    (item : CborItem) (hwf : item.wf = true) (pos : Nat)
    (hpos : pos ≤ (msgEntries m).length) :
    Message.decode (cborHead 5 ((msgEntries m).length + 1) ++
      (insertAt pos (cborStr key ++ item.encode) (msgEntries m)).flatten) = .ok m := by
  cases m with
  | Join r =>
    have hok' : strOk r.val := hok
    simp only [msgEntries, List.length_cons, List.length_nil] at hpos
    interval_cases pos
    · have hshape : cborHead 5 ((msgEntries (Message.Join r)).length + 1) ++
          (insertAt 0 (cborStr key ++ item.encode) (msgEntries (Message.Join r))).flatten =
          cborHead 5 3 ++ (cborStr key ++ (item.encode ++ (cborStr "type" ++
            (cborStr "join" ++ (cborStr "senderId" ++ (cborStr r.val ++ [])))))) := by
        simp [msgEntries, insertAt, List.append_assoc]
      rw [hshape, Message.decode, readMap_cborHead 3 _ (by norm_num)]
      simp only []
      rw [decodeFields_unknown 2 key hk h1 h2 h3 h4 h5 item hwf,
        decodeFields_typeName 1 "join" (by decide),
        decodeFields_senderId 0 r.val hok']
      rfl
    · have hshape : cborHead 5 ((msgEntries (Message.Join r)).length + 1) ++
          (insertAt 1 (cborStr key ++ item.encode) (msgEntries (Message.Join r))).flatten =
          cborHead 5 3 ++ (cborStr "type" ++ (cborStr "join" ++ (cborStr key ++
            (item.encode ++ (cborStr "senderId" ++ (cborStr r.val ++ [])))))) := by
        simp [msgEntries, insertAt, List.append_assoc]
      rw [hshape, Message.decode, readMap_cborHead 3 _ (by norm_num)]
      simp only []
      rw [decodeFields_typeName 2 "join" (by decide),
        decodeFields_unknown 1 key hk h1 h2 h3 h4 h5 item hwf,
        decodeFields_senderId 0 r.val hok']
      rfl
    · have hshape : cborHead 5 ((msgEntries (Message.Join r)).length + 1) ++
          (insertAt 2 (cborStr key ++ item.encode) (msgEntries (Message.Join r))).flatten =
          cborHead 5 3 ++ (cborStr "type" ++ (cborStr "join" ++ (cborStr "senderId" ++
            (cborStr r.val ++ (cborStr key ++ (item.encode ++ [])))))) := by
        simp [msgEntries, insertAt, List.append_assoc]
      rw [hshape, Message.decode, readMap_cborHead 3 _ (by norm_num)]
      simp only []
      rw [decodeFields_typeName 2 "join" (by decide),
        decodeFields_senderId 1 r.val hok',
        decodeFields_unknown 0 key hk h1 h2 h3 h4 h5 item hwf]
      rfl
  | Joined r =>
    have hok' : strOk r.val := hok
    simp only [msgEntries, List.length_cons, List.length_nil] at hpos
    interval_cases pos
    · have hshape : cborHead 5 ((msgEntries (Message.Joined r)).length + 1) ++
          (insertAt 0 (cborStr key ++ item.encode) (msgEntries (Message.Joined r))).flatten =
          cborHead 5 3 ++ (cborStr key ++ (item.encode ++ (cborStr "type" ++
            (cborStr "joined" ++ (cborStr "senderId" ++ (cborStr r.val ++ [])))))) := by
        simp [msgEntries, insertAt, List.append_assoc]
      rw [hshape, Message.decode, readMap_cborHead 3 _ (by norm_num)]
      simp only []
      rw [decodeFields_unknown 2 key hk h1 h2 h3 h4 h5 item hwf,
        decodeFields_typeName 1 "joined" (by decide),
        decodeFields_senderId 0 r.val hok']
      rfl
    · have hshape : cborHead 5 ((msgEntries (Message.Joined r)).length + 1) ++
          (insertAt 1 (cborStr key ++ item.encode) (msgEntries (Message.Joined r))).flatten =
          cborHead 5 3 ++ (cborStr "type" ++ (cborStr "joined" ++ (cborStr key ++
            (item.encode ++ (cborStr "senderId" ++ (cborStr r.val ++ [])))))) := by
        simp [msgEntries, insertAt, List.append_assoc]
      rw [hshape, Message.decode, readMap_cborHead 3 _ (by norm_num)]
      simp only []
      rw [decodeFields_typeName 2 "joined" (by decide),
        decodeFields_unknown 1 key hk h1 h2 h3 h4 h5 item hwf,
        decodeFields_senderId 0 r.val hok']
      rfl
    · have hshape : cborHead 5 ((msgEntries (Message.Joined r)).length + 1) ++
          (insertAt 2 (cborStr key ++ item.encode) (msgEntries (Message.Joined r))).flatten =
          cborHead 5 3 ++ (cborStr "type" ++ (cborStr "joined" ++ (cborStr "senderId" ++
            (cborStr r.val ++ (cborStr key ++ (item.encode ++ [])))))) := by
        simp [msgEntries, insertAt, List.append_assoc]
      rw [hshape, Message.decode, readMap_cborHead 3 _ (by norm_num)]
      simp only []
      rw [decodeFields_typeName 2 "joined" (by decide),
        decodeFields_senderId 1 r.val hok',
        decodeFields_unknown 0 key hk h1 h2 h3 h4 h5 item hwf]
      rfl
  | Repo rm =>
    obtain ⟨f, t, d, b⟩ := rm
    obtain ⟨hf, ht, hd, hb⟩ := hok
    simp only [msgEntries, List.length_cons, List.length_nil] at hpos
    interval_cases pos
    · have hshape : cborHead 5 ((msgEntries (.Repo (.Sync f t d b))).length + 1) ++
          (insertAt 0 (cborStr key ++ item.encode)
            (msgEntries (.Repo (.Sync f t d b)))).flatten =
          cborHead 5 6 ++ (cborStr key ++ (item.encode ++ (cborStr "type" ++
            (cborStr "message" ++ (cborStr "senderId" ++ (cborStr f.val ++
            (cborStr "targetId" ++ (cborStr t.val ++ (cborStr "documentId" ++
            (cborStr d.val ++ (cborStr "message" ++ (cborBytes b ++ [])))))))))))) := by
        simp [msgEntries, insertAt, List.append_assoc]
      rw [hshape, Message.decode, readMap_cborHead 6 _ (by norm_num)]
      simp only []
      rw [decodeFields_unknown 5 key hk h1 h2 h3 h4 h5 item hwf,
        decodeFields_typeName 4 "message" (by decide),
        decodeFields_senderId 3 f.val hf, decodeFields_targetId 2 t.val ht,
        decodeFields_documentId 1 d.val hd, decodeFields_message 0 b hb]
      rfl
    · have hshape : cborHead 5 ((msgEntries (.Repo (.Sync f t d b))).length + 1) ++
          (insertAt 1 (cborStr key ++ item.encode)
            (msgEntries (.Repo (.Sync f t d b)))).flatten =
          cborHead 5 6 ++ (cborStr "type" ++ (cborStr "message" ++ (cborStr key ++
            (item.encode ++ (cborStr "senderId" ++ (cborStr f.val ++
            (cborStr "targetId" ++ (cborStr t.val ++ (cborStr "documentId" ++
            (cborStr d.val ++ (cborStr "message" ++ (cborBytes b ++ [])))))))))))) := by
        simp [msgEntries, insertAt, List.append_assoc]
      rw [hshape, Message.decode, readMap_cborHead 6 _ (by norm_num)]
      simp only []
      rw [decodeFields_typeName 5 "message" (by decide),
        decodeFields_unknown 4 key hk h1 h2 h3 h4 h5 item hwf,
        decodeFields_senderId 3 f.val hf, decodeFields_targetId 2 t.val ht,
        decodeFields_documentId 1 d.val hd, decodeFields_message 0 b hb]
      rfl
    · have hshape : cborHead 5 ((msgEntries (.Repo (.Sync f t d b))).length + 1) ++
          (insertAt 2 (cborStr key ++ item.encode)
            (msgEntries (.Repo (.Sync f t d b)))).flatten =
          cborHead 5 6 ++ (cborStr "type" ++ (cborStr "message" ++ (cborStr "senderId" ++
            (cborStr f.val ++ (cborStr key ++ (item.encode ++
            (cborStr "targetId" ++ (cborStr t.val ++ (cborStr "documentId" ++
            (cborStr d.val ++ (cborStr "message" ++ (cborBytes b ++ [])))))))))))) := by
        simp [msgEntries, insertAt, List.append_assoc]
      rw [hshape, Message.decode, readMap_cborHead 6 _ (by norm_num)]
      simp only []
      rw [decodeFields_typeName 5 "message" (by decide),
        decodeFields_senderId 4 f.val hf,
        decodeFields_unknown 3 key hk h1 h2 h3 h4 h5 item hwf,
        decodeFields_targetId 2 t.val ht,
        decodeFields_documentId 1 d.val hd, decodeFields_message 0 b hb]
      rfl
    · have hshape : cborHead 5 ((msgEntries (.Repo (.Sync f t d b))).length + 1) ++
          (insertAt 3 (cborStr key ++ item.encode)
            (msgEntries (.Repo (.Sync f t d b)))).flatten =
          cborHead 5 6 ++ (cborStr "type" ++ (cborStr "message" ++ (cborStr "senderId" ++
            (cborStr f.val ++ (cborStr "targetId" ++ (cborStr t.val ++
            (cborStr key ++ (item.encode ++ (cborStr "documentId" ++
            (cborStr d.val ++ (cborStr "message" ++ (cborBytes b ++ [])))))))))))) := by
        simp [msgEntries, insertAt, List.append_assoc]
      rw [hshape, Message.decode, readMap_cborHead 6 _ (by norm_num)]
      simp only []
      rw [decodeFields_typeName 5 "message" (by decide),
        decodeFields_senderId 4 f.val hf, decodeFields_targetId 3 t.val ht,
        decodeFields_unknown 2 key hk h1 h2 h3 h4 h5 item hwf,
        decodeFields_documentId 1 d.val hd, decodeFields_message 0 b hb]
      rfl
    · have hshape : cborHead 5 ((msgEntries (.Repo (.Sync f t d b))).length + 1) ++
          (insertAt 4 (cborStr key ++ item.encode)
            (msgEntries (.Repo (.Sync f t d b)))).flatten =
          cborHead 5 6 ++ (cborStr "type" ++ (cborStr "message" ++ (cborStr "senderId" ++
            (cborStr f.val ++ (cborStr "targetId" ++ (cborStr t.val ++
            (cborStr "documentId" ++ (cborStr d.val ++ (cborStr key ++
            (item.encode ++ (cborStr "message" ++ (cborBytes b ++ [])))))))))))) := by
        simp [msgEntries, insertAt, List.append_assoc]
      rw [hshape, Message.decode, readMap_cborHead 6 _ (by norm_num)]
      simp only []
      rw [decodeFields_typeName 5 "message" (by decide),
        decodeFields_senderId 4 f.val hf, decodeFields_targetId 3 t.val ht,
        decodeFields_documentId 2 d.val hd,
        decodeFields_unknown 1 key hk h1 h2 h3 h4 h5 item hwf,
        decodeFields_message 0 b hb]
      rfl
    · have hshape : cborHead 5 ((msgEntries (.Repo (.Sync f t d b))).length + 1) ++
          (insertAt 5 (cborStr key ++ item.encode)
            (msgEntries (.Repo (.Sync f t d b)))).flatten =
          cborHead 5 6 ++ (cborStr "type" ++ (cborStr "message" ++ (cborStr "senderId" ++
            (cborStr f.val ++ (cborStr "targetId" ++ (cborStr t.val ++
            (cborStr "documentId" ++ (cborStr d.val ++ (cborStr "message" ++
            (cborBytes b ++ (cborStr key ++ (item.encode ++ [])))))))))))) := by
        simp [msgEntries, insertAt, List.append_assoc]
      rw [hshape, Message.decode, readMap_cborHead 6 _ (by norm_num)]
      simp only []
      rw [decodeFields_typeName 5 "message" (by decide),
        decodeFields_senderId 4 f.val hf, decodeFields_targetId 3 t.val ht,
        decodeFields_documentId 2 d.val hd, decodeFields_message 1 b hb,
        decodeFields_unknown 0 key hk h1 h2 h3 h4 h5 item hwf]
      rfl

/-- Witness for C8: an `extra` entry carrying a nested array (containing an
indefinite-length map) inserted in the middle of a `Sync` body leaves the
decode result unchanged. -/
theorem C8_unknown_key_tolerance_witness :
    Message.decode (cborHead 5
        ((msgEntries (.Repo (.Sync ⟨"a"⟩ ⟨"b"⟩ ⟨"d"⟩ [9]))).length + 1) ++
      (insertAt 2 (cborStr "extra" ++
          (CborItem.array [.uint 1, .mapIndef [(.uint 2, .bytes [7])]]).encode)
        (msgEntries (.Repo (.Sync ⟨"a"⟩ ⟨"b"⟩ ⟨"d"⟩ [9])))).flatten) =
      .ok (.Repo (.Sync ⟨"a"⟩ ⟨"b"⟩ ⟨"d"⟩ [9])) :=
  C8_unknown_key_tolerance (.Repo (.Sync ⟨"a"⟩ ⟨"b"⟩ ⟨"d"⟩ [9]))
    (by constructor <;> decide) "extra" (by decide) (by decide) (by decide)
    (by decide) (by decide) (by decide)
    (.array [.uint 1, .mapIndef [(.uint 2, .bytes [7])]]) (by decide) 2 (by decide)

end Spanreed
